import Mathlib

/-!
Verification of the mcp-memory-blockchain core against its specification.

Shallow embedding of `src/mcp_memory_blockchain/blockchain/core.py`,
`consensus.py` and `contracts.py`.  Python dicts are modelled as
insertion-ordered association lists, SHA-256 (`hashlib.sha256(...).hexdigest()`)
is modelled as an abstract parameter `h : String → String` (the claims under
study depend only on the chain/contract logic, never on properties of the
digest itself), and `json.dumps(..., sort_keys=True)` is modelled by a
canonical serializer that sorts object keys at every level by code-point
order, as Python does.  Wall-clock reads (`time.time()`) are passed in as
explicit integer microsecond arguments.  Python exceptions are modelled with
`Except String`; functions that cannot raise return plain values.
-/

set_option maxRecDepth 40000

namespace MCPChain

/-- JSON values, the model of Python `Dict[str, Any]` payloads
(`Transaction.data`, contract params and state members). -/
inductive Json where
  | str (s : String)
  | int (n : Int)
  | bool (b : Bool)
  | null
  | arr (elems : List Json)
  | obj (fields : List (String × Json))
  deriving Repr

/-- Code-point lexicographic order on character lists, the order Python uses
to compare `str` keys in `sorted`/`sort_keys`. -/
def charListLt : List Char → List Char → Bool
  | [], [] => false
  | [], _ :: _ => true
  | _ :: _, [] => false
  | a :: as, b :: bs =>
      if a.toNat < b.toNat then true
      else if b.toNat < a.toNat then false
      else charListLt as bs

/-- Strict code-point order on strings. -/
def strLtB (a b : String) : Bool := charListLt a.data b.data

/-- Total order on strings: `a ≤ b` iff not `b < a`. -/
def strLeB (a b : String) : Bool := !(strLtB b a)

/-- Insert one key-rendered pair into a key-sorted list (stable). -/
def insertPair (p : String × String) : List (String × String) → List (String × String)
  | [] => [p]
  | q :: qs => if strLeB p.1 q.1 then p :: q :: qs else q :: insertPair p qs

/-- Stable insertion sort of rendered object fields by key, the model of the
key ordering produced by `json.dumps(..., sort_keys=True)`. -/
def sortPairs : List (String × String) → List (String × String)
  | [] => []
  | p :: ps => insertPair p (sortPairs ps)

mutual
/-- `json.dumps(value, sort_keys=True)` with Python default separators.
Object fields are first rendered in place and then sorted by key: since
rendering a field does not depend on its position, this equals rendering in
sorted key order, and it keeps the recursion structural. -/
def dumpsJson : Json → String
  | .str s => "\"" ++ s ++ "\""
  | .int n => toString n
  | .bool b => if b then "true" else "false"
  | .null => "null"
  | .arr xs => "[" ++ String.intercalate ", " (dumpsList xs) ++ "]"
  | .obj fs =>
      "\x7b" ++ String.intercalate ", "
        ((sortPairs (renderFields fs)).map
          (fun p => "\"" ++ p.1 ++ "\": " ++ p.2)) ++ "\x7d"

/-- Serialize the elements of a JSON array in order. -/
def dumpsList : List Json → List String
  | [] => []
  | x :: xs => dumpsJson x :: dumpsList xs

/-- Render each object field to `(key, serialized value)` in source order. -/
def renderFields : List (String × Json) → List (String × String)
  | [] => []
  | (k, v) :: fs => (k, dumpsJson v) :: renderFields fs
end

mutual
/-- Structural equality test on JSON values (Python `==` on the payload). -/
def beqJson : Json → Json → Bool
  | .str x, .str y => x == y
  | .int x, .int y => x == y
  | .bool x, .bool y => x == y
  | .null, .null => true
  | .arr xs, .arr ys => beqJsonList xs ys
  | .obj xs, .obj ys => beqJsonFields xs ys
  | _, _ => false

/-- Equality test on JSON arrays. -/
def beqJsonList : List Json → List Json → Bool
  | [], [] => true
  | x :: xs, y :: ys => beqJson x y && beqJsonList xs ys
  | _, _ => false

/-- Equality test on JSON object field lists (order-sensitive, like Python
list equality; dict equality is not needed by the embedded operations). -/
def beqJsonFields : List (String × Json) → List (String × Json) → Bool
  | [], [] => true
  | (k, v) :: xs, (l, w) :: ys => k == l && beqJson v w && beqJsonFields xs ys
  | _, _ => false
end

instance : BEq Json := ⟨beqJson⟩

/-- Python dict assignment `d[k] = v`: replace the value at the first
occurrence of `k`, else append at the end (insertion order preserved). -/
def dictSet {α : Type} (l : List (String × α)) (k : String) (v : α) : List (String × α) :=
  match l with
  | [] => [(k, v)]
  | (k1, v1) :: rest => if k == k1 then (k, v) :: rest else (k1, v1) :: dictSet rest k v

/-- Python `d.pop(k, None)` / `del d[k]`: drop the first entry keyed `k`. -/
def eraseKey {α : Type} (k : String) : List (String × α) → List (String × α)
  | [] => []
  | (k1, v) :: rest => if k == k1 then rest else (k1, v) :: eraseKey k rest

/-! ## core.py: Transaction -/

/-- `Transaction` dataclass from `blockchain/core.py` (all fields, including
the generated `tx_id` and `data_hash`). -/
structure Transaction where
  operation : String
  data : List (String × Json)
  timestamp_micros : Int
  instance_id : String
  tx_id : String
  data_hash : String
  signature : Option String
  deriving Repr

instance : BEq Transaction :=
  ⟨fun a b =>
    a.operation == b.operation && beqJsonFields a.data b.data &&
    a.timestamp_micros == b.timestamp_micros && a.instance_id == b.instance_id &&
    a.tx_id == b.tx_id && a.data_hash == b.data_hash && a.signature == b.signature⟩

/-- `Transaction._calculate_data_hash`: sha256 of the key-sorted JSON of the
four core fields. -/
def calcDataHash (h : String → String) (operation : String) (data : List (String × Json))
    (ts : Int) (inst : String) : String :=
  h (dumpsJson (Json.obj
    [("operation", Json.str operation), ("data", Json.obj data),
     ("timestamp_micros", Json.int ts), ("instance_id", Json.str inst)]))

/-- `Transaction.__post_init__`: constructs a transaction, generating
`tx_id = "{ts}-{instance}-{first 8 of sha256(operation + dumps(data))}"`
and `data_hash`. -/
def Transaction.make (h : String → String) (operation : String)
    (data : List (String × Json)) (ts : Int) (inst : String) : Transaction :=
  let operationHash := (h (operation ++ dumpsJson (Json.obj data))).take 8
  { operation := operation, data := data, timestamp_micros := ts, instance_id := inst,
    tx_id := toString ts ++ "-" ++ inst ++ "-" ++ operationHash,
    data_hash := calcDataHash h operation data ts inst,
    signature := none }

/-- `Transaction.sign`: placeholder signature `sha256(data_hash + key)`. -/
def Transaction.withSignature (h : String → String) (tx : Transaction) (key : String) :
    Transaction :=
  { tx with signature := some (h (tx.data_hash ++ key)) }

/-- `Transaction._validate_transaction` body: the stored `data_hash` must
equal the recomputed one. -/
def validTransaction (h : String → String) (tx : Transaction) : Bool :=
  tx.data_hash == calcDataHash h tx.operation tx.data tx.timestamp_micros tx.instance_id

/-! ## core.py: Block -/

/-- `Block` dataclass (all fields, including generated `merkle_root` and
`block_hash`). -/
structure Block where
  index : Int
  timestamp_micros : Int
  previous_hash : String
  validator : String
  transactions : List Transaction
  merkle_root : String
  block_hash : String
  nonce : Int
  deriving Repr

/-- One level of the merkle loop: Python appends a duplicate of the last hash
when the level has odd length, then pairs and hashes left to right. -/
def merklePass (h : String → String) : List String → List String
  | [] => []
  | [x] => [h (x ++ x)]
  | x :: y :: rest => h (x ++ y) :: merklePass h rest

/-- The `while len(hashes) > 1` loop of `_calculate_merkle_root`, with
explicit fuel (each pass at least halves the level, so fuel equal to the
initial length always suffices). -/
def merkleLoop (h : String → String) : Nat → List String → List String
  | 0, hashes => hashes
  | fuel + 1, hashes =>
      if hashes.length > 1 then merkleLoop h fuel (merklePass h hashes) else hashes

/-- `Block._calculate_merkle_root`. -/
def calcMerkleRoot (h : String → String) (txs : List Transaction) : String :=
  if txs.isEmpty then h "empty"
  else (merkleLoop h (txs.length) (txs.map (fun tx => tx.data_hash))).headD ""

/-- `Block._calculate_hash`: sha256 of the key-sorted JSON of the six header
fields. -/
def calcBlockHash (h : String → String) (index ts : Int) (prev validator merkle : String)
    (nonce : Int) : String :=
  h (dumpsJson (Json.obj
    [("index", Json.int index), ("timestamp_micros", Json.int ts),
     ("previous_hash", Json.str prev), ("validator", Json.str validator),
     ("merkle_root", Json.str merkle), ("nonce", Json.int nonce)]))

/-- `Block.__post_init__`: construct a block, computing `merkle_root` and
`block_hash` (with the given `nonce`, default 0 at every call site). -/
def Block.make (h : String → String) (index ts : Int) (prev validator : String)
    (txs : List Transaction) (nonce : Int) : Block :=
  let merkle := calcMerkleRoot h txs
  { index := index, timestamp_micros := ts, previous_hash := prev, validator := validator,
    transactions := txs, merkle_root := merkle,
    block_hash := calcBlockHash h index ts prev validator merkle nonce,
    nonce := nonce }

/-! ## core.py: Blockchain -/

/-- Mutable state of the `Blockchain` class: the chain, the FIFO pending
list, and the `tx_id`-keyed transaction pool. -/
structure Blockchain where
  instance_id : String
  chain : List Block
  pending_transactions : List Transaction
  transaction_pool : List (String × Transaction)
  deriving Repr

/-- `Blockchain.__init__` / `_create_genesis_block` (the genesis timestamp is
the clock reading made during construction). -/
def Blockchain.init (h : String → String) (inst : String) (genesisTs : Int)
    (genesisValidator : String) : Blockchain :=
  let tx := Transaction.make h "genesis"
    [("message", Json.str "MAGI Memory Blockchain Genesis")] genesisTs genesisValidator
  let genesis := Block.make h 0 genesisTs (String.mk (List.replicate 64 '0'))
    genesisValidator [tx] 0
  { instance_id := inst, chain := [genesis], pending_transactions := [],
    transaction_pool := [] }

/-- `Blockchain.create_transaction` (the timestamp argument is the clock
reading made inside the call). -/
def Blockchain.create_transaction (h : String → String) (bc : Blockchain)
    (operation : String) (data : List (String × Json)) (ts : Int)
    (signKey : Option String) : Transaction × Blockchain :=
  let tx := Transaction.make h operation data ts bc.instance_id
  let tx := match signKey with
    | some key => tx.withSignature h key
    | none => tx
  (tx, { bc with
      transaction_pool := dictSet bc.transaction_pool tx.tx_id tx,
      pending_transactions := bc.pending_transactions ++ [tx] })

/-- `Blockchain.create_block`: when `transactions` is omitted, drain up to 10
oldest pending transactions; raise `ValueError` when none are available (and
`IndexError` on an empty chain, which is unreachable from `init`). -/
def Blockchain.create_block (h : String → String) (bc : Blockchain)
    (transactions : Option (List Transaction)) (validator : Option String)
    (ts : Int) : Except String (Block × Blockchain) :=
  let txs := match transactions with
    | none => bc.pending_transactions.take 10
    | some l => l
  let pending1 := match transactions with
    | none => bc.pending_transactions.drop 10
    | some _ => bc.pending_transactions
  if txs.isEmpty then Except.error "ValueError: No transactions to include in block"
  else
    match bc.chain.getLast? with
    | none => Except.error "IndexError"
    | some prev =>
        Except.ok
          (Block.make h (bc.chain.length) ts prev.block_hash
            (validator.getD bc.instance_id) txs 0,
           { bc with pending_transactions := pending1 })

/-- `Blockchain._validate_block`.  Note: `previous_block` is `self.chain[-1]`,
the current chain head, in the source. -/
def validateBlock (h : String → String) (chain : List Block) (block : Block) : Bool :=
  if block.index == 0 then true
  else
    match chain.getLast? with
    | none => false
    | some prev =>
        if block.index != prev.index + 1 then false
        else if block.previous_hash != prev.block_hash then false
        else if block.block_hash !=
            calcBlockHash h block.index block.timestamp_micros block.previous_hash
              block.validator block.merkle_root block.nonce then false
        else if block.merkle_root != calcMerkleRoot h block.transactions then false
        else block.transactions.all (fun tx => validTransaction h tx)

/-- `Blockchain.add_block`: validate, then append and drop the included
transactions from the pool index and the pending list.  Total (no raise). -/
def Blockchain.add_block (h : String → String) (bc : Blockchain) (block : Block) :
    Bool × Blockchain :=
  if !(validateBlock h bc.chain block) then (false, bc)
  else
    let bc1 := { bc with chain := bc.chain ++ [block] }
    let bc2 := block.transactions.foldl
      (fun acc tx =>
        { acc with
          transaction_pool := eraseKey tx.tx_id acc.transaction_pool,
          pending_transactions := acc.pending_transactions.erase tx }) bc1
    (true, bc2)

/-- The walk of `verify_integrity`: for each block (paired with its
predecessor) check the hash link, then run `_validate_block` against the full
chain, exactly as the source does once the block already sits in `self.chain`. -/
def verifyWalk (h : String → String) (fullChain : List Block) :
    List Block → Option Block → Bool
  | [], _ => true
  | b :: rest, prevOpt =>
      (match prevOpt with
       | none => true
       | some p => b.previous_hash == p.block_hash) &&
      validateBlock h fullChain b &&
      verifyWalk h fullChain rest (some b)

/-- `Blockchain.verify_integrity`. -/
def Blockchain.verify_integrity (h : String → String) (bc : Blockchain) : Bool :=
  verifyWalk h bc.chain bc.chain none

/-! ## consensus.py: Proof of Authority -/

/-- `Validator` dataclass. -/
structure Validator where
  instance_id : String
  name : String
  address : String
  public_key : String
  is_active : Bool
  last_block_time : Option Int
  deriving Repr, DecidableEq

/-- Mutable state of the `ProofOfAuthority` class.  The validator registry is
a Python dict keyed by `instance_id`; its insertion order is load-bearing. -/
structure ProofOfAuthority where
  blockchain : Blockchain
  block_time : Int
  validators : List (String × Validator)
  current_validator_index : Nat
  deriving Repr

/-- `ProofOfAuthority.add_validator`: refuse duplicates, else append. -/
def ProofOfAuthority.add_validator (poa : ProofOfAuthority) (v : Validator) :
    Bool × ProofOfAuthority :=
  if (List.lookup v.instance_id poa.validators).isSome then (false, poa)
  else (true, { poa with validators := poa.validators ++ [(v.instance_id, v)] })

/-- `ProofOfAuthority.__init__` with an explicit validator list (the default
MAGI list is `defaultValidators` below). -/
def ProofOfAuthority.init (bc : Blockchain) (blockTime : Int) (vs : List Validator) :
    ProofOfAuthority :=
  vs.foldl (fun poa v => (poa.add_validator v).2)
    { blockchain := bc, block_time := blockTime, validators := [],
      current_validator_index := 0 }

/-- `_add_default_validators`: the four default MAGI validators, in source
order. -/
def defaultValidators : List Validator :=
  [{ instance_id := "Melchior-001", name := "Melchior", address := "192.168.50.100:8545",
     public_key := "melchior_pubkey_placeholder", is_active := true, last_block_time := none },
   { instance_id := "Balthasar-001", name := "Balthasar", address := "192.168.50.101:8545",
     public_key := "balthasar_pubkey_placeholder", is_active := true, last_block_time := none },
   { instance_id := "Caspar-001", name := "Caspar", address := "192.168.50.102:8545",
     public_key := "caspar_pubkey_placeholder", is_active := true, last_block_time := none },
   { instance_id := "NAS-001", name := "NAS", address := "192.168.50.78:8545",
     public_key := "nas_pubkey_placeholder", is_active := true, last_block_time := none }]

/-- `ProofOfAuthority.remove_validator`: only flips `is_active` to false; the
entry stays in the registry at its position. -/
def ProofOfAuthority.remove_validator (poa : ProofOfAuthority) (id : String) :
    Bool × ProofOfAuthority :=
  match List.lookup id poa.validators with
  | none => (false, poa)
  | some v =>
      (true, { poa with validators := dictSet poa.validators id { v with is_active := false } })

/-- The `active_validators` comprehension: registry values with
`is_active`, in insertion order. -/
def ProofOfAuthority.active_validators (poa : ProofOfAuthority) : List Validator :=
  (poa.validators.map Prod.snd).filter (fun v => v.is_active)

/-- `ProofOfAuthority.get_current_validator`: round-robin pick
`active[index % len(active)]`, `None` when no validator is active. -/
def ProofOfAuthority.get_current_validator (poa : ProofOfAuthority) : Option Validator :=
  let active := poa.active_validators
  if active.isEmpty then none
  else active.get? (poa.current_validator_index % active.length)

/-- `ProofOfAuthority.is_my_turn`. -/
def ProofOfAuthority.is_my_turn (poa : ProofOfAuthority) (id : String) : Bool :=
  match poa.get_current_validator with
  | some v => v.instance_id == id
  | none => false

/-- `ProofOfAuthority.can_create_block`: my turn, block interval elapsed
(`nowMicros` is the wall-clock read, compared in microseconds), and the
pending pool non-empty. -/
def ProofOfAuthority.can_create_block (poa : ProofOfAuthority) (id : String)
    (nowMicros : Int) : Bool :=
  if !(poa.is_my_turn id) then false
  else
    let timeOk := match poa.blockchain.chain.getLast? with
      | some last => !(nowMicros - last.timestamp_micros < poa.block_time * 1000)
      | none => true
    if !timeOk then false
    else !(poa.blockchain.pending_transactions.isEmpty)

/-- `ProofOfAuthority.create_block`: when authorized, delegate to
`Blockchain.create_block`, stamp the creating validator and advance the
rotation pointer by one.  `tsMicros` is the clock reading made inside
`Blockchain.create_block`. -/
def ProofOfAuthority.create_block (h : String → String) (poa : ProofOfAuthority)
    (id : String) (nowMicros tsMicros : Int) :
    Except String (Option Block × ProofOfAuthority) :=
  if !(poa.can_create_block id nowMicros) then Except.ok (none, poa)
  else
    match List.lookup id poa.validators with
    | none => Except.ok (none, poa)
    | some v =>
        if !v.is_active then Except.ok (none, poa)
        else
          match Blockchain.create_block h poa.blockchain none (some id) tsMicros with
          | Except.error e => Except.error e
          | Except.ok (block, bc) =>
              Except.ok (some block,
                { poa with
                  blockchain := bc,
                  validators := dictSet poa.validators id
                    { v with last_block_time := some block.timestamp_micros },
                  current_validator_index := poa.current_validator_index + 1 })

/-- One `current_validator_index += 1` pointer advance (performed by the
source inside `create_block`). -/
def ProofOfAuthority.advance (poa : ProofOfAuthority) : ProofOfAuthority :=
  { poa with current_validator_index := poa.current_validator_index + 1 }

/-- Direct field assignment `validators[id].is_active = b` (reactivation has
no dedicated method in the source; `Validator` is a mutable dataclass). -/
def ProofOfAuthority.set_validator_active (poa : ProofOfAuthority) (id : String)
    (b : Bool) : ProofOfAuthority :=
  match List.lookup id poa.validators with
  | none => poa
  | some v =>
      { poa with validators := dictSet poa.validators id { v with is_active := b } }

/-! ## contracts.py: MemoryLockContract -/

/-- Truthiness of an optional string parameter: Python `not x` for a missing
or empty `str`. -/
def strFalsy : Option String → Bool
  | none => true
  | some s => s.isEmpty

/-- One entry of the lock table: `{holder, acquired, expires}` (microsecond
timestamps). -/
structure LockEntry where
  holder : String
  acquired : Int
  expires : Int
  deriving Repr, DecidableEq

/-- State of `MemoryLockContract`: the lock table and the default duration. -/
structure MemoryLockState where
  locks : List (String × LockEntry)
  lock_duration_ms : Int
  deriving Repr, DecidableEq

/-- `MemoryLockContract.__init__` state. -/
def MemoryLockState.initial : MemoryLockState :=
  { locks := [], lock_duration_ms := 30000 }

/-- Parameters a lock-contract call reads (`params.get(...)`). -/
structure LockParams where
  entity_name : Option String
  duration_ms : Option Int
  extension_ms : Option Int
  deriving Repr, DecidableEq

/-- Result dictionary of a lock-contract call (fields that any of the four
functions may set). -/
structure LockResult where
  success : Bool
  error : Option String := none
  entity_name : Option String := none
  holder : Option String := none
  expires : Option Int := none
  locked : Option Bool := none
  new_expires : Option Int := none
  deriving Repr, DecidableEq

namespace MemoryLockContract

/-- `_acquire_lock` (`now` is the microsecond clock reading). -/
def acquire_lock (st : MemoryLockState) (params : LockParams) (caller : String)
    (now : Int) : LockResult × MemoryLockState :=
  let duration := params.duration_ms.getD st.lock_duration_ms
  if strFalsy params.entity_name then
    ({ success := false, error := some "entity_name required" }, st)
  else
    let name := params.entity_name.getD ""
    let blocked := match List.lookup name st.locks with
      | some lock => if lock.expires > now then some lock else none
      | none => none
    match blocked with
    | some lock =>
        ({ success := false, error := some "Entity already locked",
           holder := some lock.holder, expires := some lock.expires }, st)
    | none =>
        let entry : LockEntry := { holder := caller, acquired := now,
                                   expires := now + duration * 1000 }
        ({ success := true, entity_name := some name, holder := some caller,
           expires := some entry.expires },
         { st with locks := dictSet st.locks name entry })

/-- `_release_lock`: only the holder may delete the entry. -/
def release_lock (st : MemoryLockState) (params : LockParams) (caller : String) :
    LockResult × MemoryLockState :=
  if strFalsy params.entity_name then
    ({ success := false, error := some "entity_name required" }, st)
  else
    let name := params.entity_name.getD ""
    match List.lookup name st.locks with
    | none => ({ success := false, error := some "No lock found" }, st)
    | some lock =>
        if lock.holder != caller then
          ({ success := false, error := some "Only lock holder can release" }, st)
        else
          ({ success := true, entity_name := some name },
           { st with locks := eraseKey name st.locks })

/-- `_check_lock`: lazily evicts an expired entry before reporting. -/
def check_lock (st : MemoryLockState) (params : LockParams) (now : Int) :
    LockResult × MemoryLockState :=
  if strFalsy params.entity_name then
    ({ success := false, error := some "entity_name required" }, st)
  else
    let name := params.entity_name.getD ""
    match List.lookup name st.locks with
    | none => ({ success := true, locked := some false }, st)
    | some lock =>
        if lock.expires ≤ now then
          ({ success := true, locked := some false },
           { st with locks := eraseKey name st.locks })
        else
          ({ success := true, locked := some true, holder := some lock.holder,
             expires := some lock.expires }, st)

/-- `_extend_lock`: only the holder may push `expires` out. -/
def extend_lock (st : MemoryLockState) (params : LockParams) (caller : String) :
    LockResult × MemoryLockState :=
  let extension := params.extension_ms.getD st.lock_duration_ms
  if strFalsy params.entity_name then
    ({ success := false, error := some "entity_name required" }, st)
  else
    let name := params.entity_name.getD ""
    match List.lookup name st.locks with
    | none => ({ success := false, error := some "No lock found" }, st)
    | some lock =>
        if lock.holder != caller then
          ({ success := false, error := some "Only lock holder can extend" }, st)
        else
          let lock1 := { lock with expires := lock.expires + extension * 1000 }
          ({ success := true, entity_name := some name,
             new_expires := some lock1.expires },
           { st with locks := dictSet st.locks name lock1 })

/-- `MemoryLockContract.execute`: dispatch on the function name; an unknown
name raises `ValueError` (modelled as `Except.error`). -/
def execute (st : MemoryLockState) (function : String) (params : LockParams)
    (caller : String) (now : Int) : Except String (LockResult × MemoryLockState) :=
  if function == "acquire_lock" then Except.ok (acquire_lock st params caller now)
  else if function == "release_lock" then Except.ok (release_lock st params caller)
  else if function == "check_lock" then Except.ok (check_lock st params now)
  else if function == "extend_lock" then Except.ok (extend_lock st params caller)
  else Except.error ("Unknown function: " ++ function)

end MemoryLockContract

/-! ## contracts.py: ResourceAllocationContract -/

/-- A per-caller allocation record. -/
structure ResAlloc where
  cpu : Int
  memory : Int
  storage : Int
  allocated_at : Int
  deriving Repr, DecidableEq

/-- The three-dimensional usage / headroom vector. -/
structure ResUsage where
  cpu : Int
  memory : Int
  storage : Int
  deriving Repr, DecidableEq

/-- The fixed capacity limits. -/
structure ResLimits where
  total_cpu : Int
  total_memory : Int
  total_storage : Int
  deriving Repr, DecidableEq

/-- State of `ResourceAllocationContract`. -/
structure ResourceState where
  allocations : List (String × ResAlloc)
  limits : ResLimits
  used : ResUsage
  deriving Repr, DecidableEq

/-- `ResourceAllocationContract.__init__` state. -/
def ResourceState.initial : ResourceState :=
  { allocations := [],
    limits := { total_cpu := 400, total_memory := 16384, total_storage := 102400 },
    used := { cpu := 0, memory := 0, storage := 0 } }

/-- Parameters a resource-contract call reads. -/
structure ResParams where
  cpu : Option Int
  memory : Option Int
  storage : Option Int
  instance_id : Option String
  deriving Repr, DecidableEq

/-- Result dictionary of a resource-contract call. -/
structure ResResult where
  success : Bool
  error : Option String := none
  available : Option ResUsage := none
  allocation : Option ResAlloc := none
  limits : Option ResLimits := none
  used : Option ResUsage := none
  deriving Repr, DecidableEq

namespace ResourceAllocationContract

/-- `_request_resources`.  The capacity check runs on `used` as stored, that
is before the caller previous allocation (if any) is credited back; the old
allocation is subtracted only on the success path. -/
def request_resources (st : ResourceState) (params : ResParams) (caller : String)
    (now : Int) : ResResult × ResourceState :=
  let cpu := params.cpu.getD 0
  let memory := params.memory.getD 0
  let storage := params.storage.getD 0
  let limits := st.limits
  let used := st.used
  if used.cpu + cpu > limits.total_cpu || used.memory + memory > limits.total_memory ||
      used.storage + storage > limits.total_storage then
    ({ success := false, error := some "Insufficient resources",
       available := some { cpu := limits.total_cpu - used.cpu,
                           memory := limits.total_memory - used.memory,
                           storage := limits.total_storage - used.storage } }, st)
  else
    let used1 := match List.lookup caller st.allocations with
      | some old => { cpu := used.cpu - old.cpu, memory := used.memory - old.memory,
                      storage := used.storage - old.storage : ResUsage }
      | none => used
    let alloc : ResAlloc := { cpu := cpu, memory := memory, storage := storage,
                              allocated_at := now }
    ({ success := true, allocation := some alloc },
     { st with
       allocations := dictSet st.allocations caller alloc,
       used := { cpu := used1.cpu + cpu, memory := used1.memory + memory,
                 storage := used1.storage + storage } })

/-- `_release_resources`. -/
def release_resources (st : ResourceState) (caller : String) :
    ResResult × ResourceState :=
  match List.lookup caller st.allocations with
  | none => ({ success := false, error := some "No allocation found" }, st)
  | some alloc =>
      ({ success := true },
       { st with
         allocations := eraseKey caller st.allocations,
         used := { cpu := st.used.cpu - alloc.cpu, memory := st.used.memory - alloc.memory,
                   storage := st.used.storage - alloc.storage } })

/-- `_get_allocation`: read-only. -/
def get_allocation (st : ResourceState) (params : ResParams) : ResResult :=
  if strFalsy params.instance_id then
    { success := false, error := some "instance_id required" }
  else
    match List.lookup (params.instance_id.getD "") st.allocations with
    | none => { success := true }
    | some alloc => { success := true, allocation := some alloc }

/-- `_get_usage`: read-only. -/
def get_usage (st : ResourceState) : ResResult :=
  { success := true, limits := some st.limits, used := some st.used,
    available := some { cpu := st.limits.total_cpu - st.used.cpu,
                        memory := st.limits.total_memory - st.used.memory,
                        storage := st.limits.total_storage - st.used.storage } }

/-- `ResourceAllocationContract.execute` dispatch; unknown names raise. -/
def execute (st : ResourceState) (function : String) (params : ResParams)
    (caller : String) (now : Int) : Except String (ResResult × ResourceState) :=
  if function == "request_resources" then Except.ok (request_resources st params caller now)
  else if function == "release_resources" then Except.ok (release_resources st caller)
  else if function == "get_allocation" then Except.ok (get_allocation st params, st)
  else if function == "get_usage" then Except.ok (get_usage st, st)
  else Except.error ("Unknown function: " ++ function)

end ResourceAllocationContract

/-! ## contracts.py: WorkflowAutomationContract -/

/-- A registered workflow definition. -/
structure Workflow where
  owner : String
  steps : List Json
  triggers : List Json
  created_at : Int
  is_active : Bool
  deriving Repr

/-- An execution record created by `trigger_workflow`. -/
structure WfExecution where
  workflow_id : String
  triggered_by : String
  started_at : Int
  status : String
  current_step : Int
  input_data : Json
  step_results : List Json
  deriving Repr

/-- State of `WorkflowAutomationContract`. -/
structure WorkflowState where
  workflows : List (String × Workflow)
  executions : List (String × WfExecution)
  deriving Repr

/-- `WorkflowAutomationContract.__init__` state. -/
def WorkflowState.initial : WorkflowState :=
  { workflows := [], executions := [] }

/-- Parameters a workflow-contract call reads. -/
structure WfParams where
  workflow_id : Option String
  steps : List Json
  triggers : List Json
  input_data : Json
  execution_id : Option String
  deriving Repr

/-- Result dictionary of a workflow-contract call. -/
structure WfResult where
  success : Bool
  error : Option String := none
  workflow_id : Option String := none
  execution_id : Option String := none
  execution : Option WfExecution := none
  deriving Repr

namespace WorkflowAutomationContract

/-- `_register_workflow`. -/
def register_workflow (st : WorkflowState) (params : WfParams) (caller : String)
    (now : Int) : WfResult × WorkflowState :=
  if strFalsy params.workflow_id || params.steps.isEmpty then
    ({ success := false, error := some "workflow_id and steps required" }, st)
  else
    let id := params.workflow_id.getD ""
    let wf : Workflow := { owner := caller, steps := params.steps,
                           triggers := params.triggers, created_at := now,
                           is_active := true }
    ({ success := true, workflow_id := some id },
     { st with workflows := dictSet st.workflows id wf })

/-- `_trigger_workflow`: records intent only; the steps are not executed. -/
def trigger_workflow (st : WorkflowState) (params : WfParams) (caller : String)
    (now : Int) : WfResult × WorkflowState :=
  if strFalsy params.workflow_id then
    ({ success := false, error := some "workflow_id required" }, st)
  else
    let id := params.workflow_id.getD ""
    match List.lookup id st.workflows with
    | none => ({ success := false, error := some "Workflow not found" }, st)
    | some _ =>
        let execId := id ++ "-" ++ toString now
        let ex : WfExecution := { workflow_id := id, triggered_by := caller,
                                  started_at := now, status := "running",
                                  current_step := 0, input_data := params.input_data,
                                  step_results := [] }
        ({ success := true, execution_id := some execId },
         { st with executions := dictSet st.executions execId ex })

/-- `_get_execution_status`: read-only. -/
def get_execution_status (st : WorkflowState) (params : WfParams) : WfResult :=
  if strFalsy params.execution_id then
    { success := false, error := some "execution_id required" }
  else
    match List.lookup (params.execution_id.getD "") st.executions with
    | none => { success := false, error := some "Execution not found" }
    | some e => { success := true, execution := some e }

/-- `WorkflowAutomationContract.execute` dispatch; unknown names raise. -/
def execute (st : WorkflowState) (function : String) (params : WfParams)
    (caller : String) (now : Int) : Except String (WfResult × WorkflowState) :=
  if function == "register_workflow" then Except.ok (register_workflow st params caller now)
  else if function == "trigger_workflow" then Except.ok (trigger_workflow st params caller now)
  else if function == "get_execution_status" then Except.ok (get_execution_status st params, st)
  else Except.error ("Unknown function: " ++ function)

end WorkflowAutomationContract

/-- Concrete stand-in used to instantiate the abstract sha256 parameter in
closed runs (like the real digest it has bounded output length); none of the
evaluated facts depend on its choice. -/
def testHash : String → String := fun s => "#" ++ toString s.length ++ ":" ++ s.take 32

example :
    (Transaction.make testHash "create_entity" [("name", Json.str "E")] 7 "T").tx_id
      = "7-T-" ++ (testHash ("create_entity" ++ "\x7b\"name\": \"E\"\x7d")).take 8 := by
  decide

/-! ## Association-list lemmas shared by the claims -/

theorem lookup_dictSet_self {α : Type} (l : List (String × α)) (k : String) (v : α) :
    List.lookup k (dictSet l k v) = some v := by
  induction l with
  | nil => simp [dictSet, List.lookup]
  | cons p rest ih =>
      obtain ⟨k1, v1⟩ := p
      by_cases hk : k = k1
      · subst hk; simp [dictSet, List.lookup]
      · have hb : (k == k1) = false := beq_eq_false_iff_ne.mpr hk
        simp [dictSet, List.lookup, hb, ih]

theorem dictSet_lookup_self {α : Type} {l : List (String × α)} {k : String} {v : α}
    (hl : List.lookup k l = some v) : dictSet l k v = l := by
  induction l with
  | nil => simp [List.lookup] at hl
  | cons p rest ih =>
      obtain ⟨k1, v1⟩ := p
      by_cases hk : k = k1
      · subst hk
        simp [List.lookup] at hl
        simp [dictSet, hl]
      · have hb : (k == k1) = false := beq_eq_false_iff_ne.mpr hk
        simp [List.lookup, hb] at hl
        simp [dictSet, hb, ih hl]

theorem dictSet_dictSet {α : Type} (l : List (String × α)) (k : String) (w v : α) :
    dictSet (dictSet l k w) k v = dictSet l k v := by
  induction l with
  | nil => simp [dictSet]
  | cons p rest ih =>
      obtain ⟨k1, v1⟩ := p
      by_cases hk : k = k1
      · subst hk; simp [dictSet]
      · have hb : (k == k1) = false := beq_eq_false_iff_ne.mpr hk
        simp [dictSet, hb, ih]

theorem mem_dictSet {α : Type} {l : List (String × α)} {k : String} {v : α}
    {p : String × α} (hp : p ∈ dictSet l k v) : p = (k, v) ∨ p ∈ l := by
  induction l with
  | nil => simp [dictSet] at hp; simp [hp]
  | cons q rest ih =>
      obtain ⟨k1, v1⟩ := q
      by_cases hk : k = k1
      · subst hk
        simp [dictSet] at hp
        rcases hp with hp | hp
        · left; simp [hp]
        · right; simp [hp]
      · have hb : (k == k1) = false := beq_eq_false_iff_ne.mpr hk
        simp [dictSet, hb] at hp
        rcases hp with hp | hp
        · right; simp [hp]
        · rcases ih hp with hh | hh
          · left; exact hh
          · right; simp [hh]

theorem mem_keys_dictSet {α : Type} {l : List (String × α)} {k a : String} {v : α} :
    a ∈ (dictSet l k v).map Prod.fst ↔ a ∈ l.map Prod.fst ∨ a = k := by
  induction l with
  | nil => simp [dictSet]
  | cons q rest ih =>
      obtain ⟨k1, v1⟩ := q
      by_cases hk : k = k1
      · subst hk; simp [dictSet]; tauto
      · have hb : (k == k1) = false := beq_eq_false_iff_ne.mpr hk
        simp [dictSet, hb, ih]; tauto

theorem dictSet_keys_nodup {α : Type} {l : List (String × α)} {k : String} {v : α}
    (h : (l.map Prod.fst).Nodup) : ((dictSet l k v).map Prod.fst).Nodup := by
  induction l with
  | nil => simp [dictSet]
  | cons q rest ih =>
      obtain ⟨k1, v1⟩ := q
      rw [List.map_cons, List.nodup_cons] at h
      by_cases hk : k = k1
      · subst hk
        simp only [dictSet, beq_self_eq_true, if_true]
        rw [List.map_cons, List.nodup_cons]
        exact h
      · have hb : (k == k1) = false := beq_eq_false_iff_ne.mpr hk
        simp only [dictSet, hb, Bool.false_eq_true, if_false]
        rw [List.map_cons, List.nodup_cons]
        refine ⟨?_, ih h.2⟩
        intro hcon
        rcases mem_keys_dictSet.mp hcon with hh | hh
        · exact h.1 hh
        · exact hk (hh.symm)

theorem eraseKey_sublist {α : Type} (k : String) (l : List (String × α)) :
    (eraseKey k l).Sublist l := by
  induction l with
  | nil => simp [eraseKey]
  | cons q rest ih =>
      obtain ⟨k1, v1⟩ := q
      by_cases hk : k = k1
      · subst hk; simp [eraseKey]
      · have hb : (k == k1) = false := beq_eq_false_iff_ne.mpr hk
        simp [eraseKey, hb]
        exact ih

theorem lookup_mem {α : Type} {l : List (String × α)} {k : String} {v : α}
    (hl : List.lookup k l = some v) : (k, v) ∈ l := by
  induction l with
  | nil => simp [List.lookup] at hl
  | cons q rest ih =>
      obtain ⟨k1, v1⟩ := q
      by_cases hk : k = k1
      · subst hk
        simp [List.lookup] at hl
        simp [hl]
      · have hb : (k == k1) = false := beq_eq_false_iff_ne.mpr hk
        simp [List.lookup, hb] at hl
        simp [ih hl]

/-! ## Claim C7 -/

/-- Claim C7: for each of the three contracts separately, calling `execute`
with a function name outside THAT contract's known set raises a hard
"Unknown function" error (an exception, modelled as `Except.error`), rather
than returning a soft `success := false` result map — even when the name is
a valid function of one of the other contracts. -/
theorem c7_unknown_function_raises (fn : String) (p1 : LockParams) (p2 : ResParams)
    (p3 : WfParams) (caller : String) (now : Int) (st1 : MemoryLockState)
    (st2 : ResourceState) (st3 : WorkflowState) :
    (fn ∉ (["acquire_lock", "release_lock", "check_lock",
            "extend_lock"] : List String) →
      MemoryLockContract.execute st1 fn p1 caller now
        = Except.error ("Unknown function: " ++ fn))
    ∧ (fn ∉ (["request_resources", "release_resources", "get_allocation",
              "get_usage"] : List String) →
      ResourceAllocationContract.execute st2 fn p2 caller now
        = Except.error ("Unknown function: " ++ fn))
    ∧ (fn ∉ (["register_workflow", "trigger_workflow",
              "get_execution_status"] : List String) →
      WorkflowAutomationContract.execute st3 fn p3 caller now
        = Except.error ("Unknown function: " ++ fn)) := by
  refine ⟨?_, ?_, ?_⟩
  · intro h1
    simp only [List.mem_cons, List.not_mem_nil, not_or] at h1
    simp [MemoryLockContract.execute, h1.1, h1.2.1, h1.2.2.1, h1.2.2.2.1]
  · intro h2
    simp only [List.mem_cons, List.not_mem_nil, not_or] at h2
    simp [ResourceAllocationContract.execute, h2.1, h2.2.1, h2.2.2.1, h2.2.2.2.1]
  · intro h3
    simp only [List.mem_cons, List.not_mem_nil, not_or] at h3
    simp [WorkflowAutomationContract.execute, h3.1, h3.2.1, h3.2.2.1]

/-- Witness for C7: "frobnicate" is unknown to the lock contract, and the
cross-contract name "acquire_lock" — valid for the lock contract — raises on
the resource and workflow contracts. -/
theorem c7_unknown_function_raises_witness :
    MemoryLockContract.execute MemoryLockState.initial "frobnicate"
        { entity_name := none, duration_ms := none, extension_ms := none } "A" 0
      = Except.error ("Unknown function: " ++ "frobnicate")
    ∧ ResourceAllocationContract.execute ResourceState.initial "acquire_lock"
        { cpu := none, memory := none, storage := none, instance_id := none } "A" 0
      = Except.error ("Unknown function: " ++ "acquire_lock")
    ∧ WorkflowAutomationContract.execute WorkflowState.initial "acquire_lock"
        { workflow_id := none, steps := [], triggers := [], input_data := Json.null,
          execution_id := none } "A" 0
      = Except.error ("Unknown function: " ++ "acquire_lock") :=
  ⟨(c7_unknown_function_raises "frobnicate"
      { entity_name := none, duration_ms := none, extension_ms := none }
      { cpu := none, memory := none, storage := none, instance_id := none }
      { workflow_id := none, steps := [], triggers := [], input_data := Json.null,
        execution_id := none } "A" 0
      MemoryLockState.initial ResourceState.initial WorkflowState.initial).1
    (by decide),
   (c7_unknown_function_raises "acquire_lock"
      { entity_name := none, duration_ms := none, extension_ms := none }
      { cpu := none, memory := none, storage := none, instance_id := none }
      { workflow_id := none, steps := [], triggers := [], input_data := Json.null,
        execution_id := none } "A" 0
      MemoryLockState.initial ResourceState.initial WorkflowState.initial).2.1
    (by decide),
   (c7_unknown_function_raises "acquire_lock"
      { entity_name := none, duration_ms := none, extension_ms := none }
      { cpu := none, memory := none, storage := none, instance_id := none }
      { workflow_id := none, steps := [], triggers := [], input_data := Json.null,
        execution_id := none } "A" 0
      MemoryLockState.initial ResourceState.initial WorkflowState.initial).2.2
    (by decide)⟩

/-! ## Claim C5 -/

theorem merklePass_length (h : String → String) :
    ∀ l : List String, (merklePass h l).length = (l.length + 1) / 2
  | [] => by simp [merklePass]
  | [x] => by simp [merklePass]
  | x :: y :: rest => by
      have ih := merklePass_length h rest
      simp [merklePass, ih]
      omega

/-- The pairwise-SHA-256 fold as the specification words it: hash pairs level
by level, duplicating the last element of an odd level, until a single hash
remains; the empty list folds to `sha256("empty")`. -/
def merkleFoldSpec (h : String → String) : List String → String
  | [] => h "empty"
  | [x] => x
  | x :: y :: rest => merkleFoldSpec h (merklePass h (x :: y :: rest))
  termination_by l => l.length
  decreasing_by
    simp [merklePass_length]
    omega

theorem merkleLoop_spec (h : String → String) :
    ∀ fuel : Nat, ∀ l : List String, l ≠ [] → l.length ≤ fuel →
      (merkleLoop h fuel l).headD "" = merkleFoldSpec h l
  | 0, l => by
      intro hne hle
      cases l with
      | nil => exact absurd rfl hne
      | cons x rest => simp at hle
  | fuel + 1, l => by
      intro hne hle
      match l with
      | [x] => simp [merkleLoop, merkleFoldSpec]
      | x :: y :: rest =>
          have hplen : (merklePass h (x :: y :: rest)).length = (rest.length + 3) / 2 := by
            simp [merklePass_length]
          have hne2 : merklePass h (x :: y :: rest) ≠ [] := by
            intro hcon
            rw [hcon] at hplen
            simp at hplen
            omega
          have hle2 : (merklePass h (x :: y :: rest)).length ≤ fuel := by
            rw [hplen]
            simp at hle
            omega
          have hstep : merkleLoop h (fuel + 1) (x :: y :: rest)
              = merkleLoop h fuel (merklePass h (x :: y :: rest)) := by
            simp [merkleLoop]
          rw [hstep, merkleLoop_spec h fuel _ hne2 hle2]
          rw [merkleFoldSpec]

theorem calcMerkleRoot_eq_spec (h : String → String) (txs : List Transaction) :
    calcMerkleRoot h txs = merkleFoldSpec h (txs.map (fun tx => tx.data_hash)) := by
  cases txs with
  | nil => simp [calcMerkleRoot, merkleFoldSpec]
  | cons t ts =>
      have hne : (t :: ts).map (fun tx => tx.data_hash) ≠ [] := by simp
      have hle : ((t :: ts).map (fun tx => tx.data_hash)).length ≤ (t :: ts).length := by
        simp
      simp only [calcMerkleRoot, List.isEmpty_cons, Bool.false_eq_true, if_false]
      rw [merkleLoop_spec h (t :: ts).length _ hne hle]

/-- Claim C5: a block's stored `merkle_root` equals the pairwise-SHA-256 fold
of its transactions' `data_hash` values (duplicating the last element of an
odd level until one hash remains); a block built from an empty transaction
list stores `sha256("empty")`; and recomputing `_calculate_merkle_root` over
a freshly constructed block's stored transactions reproduces the stored
root. -/
theorem c5_merkle_root_fold (h : String → String) (index ts : Int)
    (prev validator : String) (txs : List Transaction) (nonce : Int) :
    (Block.make h index ts prev validator txs nonce).merkle_root
        = merkleFoldSpec h (txs.map (fun tx => tx.data_hash))
    ∧ (Block.make h index ts prev validator [] nonce).merkle_root = h "empty"
    ∧ calcMerkleRoot h (Block.make h index ts prev validator txs nonce).transactions
        = (Block.make h index ts prev validator txs nonce).merkle_root := by
  refine ⟨?_, ?_, ?_⟩
  · show calcMerkleRoot h txs = _
    exact calcMerkleRoot_eq_spec h txs
  · rfl
  · rfl

/-! ## Claim C2 -/

/-- Claim C2 counterexample: `_validate_block` accepts any candidate whose
`index` field is 0 without looking at `previous_hash` at all, so `add_block`
accepts a forged index-0 block whose `previous_hash` differs from the head's
`block_hash` and appends it — the claim "for every candidate block whose
previous_hash differs from the current chain head's block_hash, addBlock
returns false and leaves the chain unchanged" is false as stated. -/
theorem c2_counterexample :
    let bc := Blockchain.init testHash "TEST-001" 0 "GENESIS"
    let forged := Block.make testHash 0 50 "not-the-head-hash" "EVIL"
      [Transaction.make testHash "x" [] 10 "EVIL"] 0
    bc.chain.getLast?.map (fun hd => forged.previous_hash == hd.block_hash) = some false
    ∧ (Blockchain.add_block testHash bc forged).1 = true
    ∧ (Blockchain.add_block testHash bc forged).2.chain.length = 2 := by
  refine ⟨by decide, by decide, by decide⟩

/-- Claim C2 (amended: restricted to candidates with nonzero `index`, the
only ones the previous-hash check ever reaches): on a nonempty chain,
`add_block` with a candidate whose `index` is nonzero and whose
`previous_hash` differs from the head's `block_hash` returns `false` and
returns the state unchanged — chain, pending list and pool index — and,
being a total function into `Bool × Blockchain`, it never raises. -/
theorem c2_add_block_rejects_bad_link (h : String → String) (bc : Blockchain)
    (block : Block) (hd : Block) (hlast : bc.chain.getLast? = some hd)
    (hidx : block.index ≠ 0) (hprev : block.previous_hash ≠ hd.block_hash) :
    Blockchain.add_block h bc block = (false, bc) := by
  have hidxb : (block.index == 0) = false := beq_eq_false_iff_ne.mpr hidx
  have hprevb : (block.previous_hash == hd.block_hash) = false :=
    beq_eq_false_iff_ne.mpr hprev
  have hval : validateBlock h bc.chain block = false := by
    by_cases hi : block.index = hd.index + 1
    · simp [validateBlock, hidxb, hlast, hi, hprevb]
      exact ⟨hi ▸ hidx, fun hcon => absurd hcon hprev⟩
    · have hib : (block.index == hd.index + 1) = false := beq_eq_false_iff_ne.mpr hi
      simp [validateBlock, hidxb, hlast, hib]
      intro hcon
      exact absurd hcon hi
  simp [Blockchain.add_block, hval]

/-- Witness for the amended C2: a concrete candidate with index 1 and a wrong
`previous_hash` against the freshly initialized chain is rejected without any
state change. -/
theorem c2_add_block_rejects_bad_link_witness :
    Blockchain.add_block testHash (Blockchain.init testHash "TEST-001" 0 "GENESIS")
        (Block.make testHash 1 50 "garbage-prev-hash" "X"
          [Transaction.make testHash "x" [] 10 "X"] 0)
      = (false, Blockchain.init testHash "TEST-001" 0 "GENESIS") :=
  c2_add_block_rejects_bad_link testHash _ _
    ((Blockchain.init testHash "TEST-001" 0 "GENESIS").chain.headD
      (Block.make testHash 0 0 "" "" [] 0))
    rfl (by decide) (by decide)

/-! ## Claim C1 -/

/-- One round of the integrity test from the repository test suite
(`test_blockchain_integrity_verification`): create one transaction, drain it
into a block, and append the block. -/
def c1Round (h : String → String) (bc : Blockchain) (i : Int) : Bool × Blockchain :=
  let bc1 := (Blockchain.create_transaction h bc "test_op" [("index", Json.int i)]
    (1000 + i) none).2
  match Blockchain.create_block h bc1 none none (2000 + i) with
  | Except.error _ => (false, bc1)
  | Except.ok (blk, bc2) => Blockchain.add_block h bc2 blk

/-- The five-round trace of the integrity test, recording each `add_block`
return value. -/
def c1Trace : List Bool × Blockchain :=
  [0, 1, 2, 3, 4].foldl
    (fun acc i =>
      let r := c1Round testHash acc.2 i
      (acc.1 ++ [r.1], r.2))
    ([], Blockchain.init testHash "TEST-001" 0 "GENESIS")

/-- Claim C1 is what the specification and the repository's own test assert,
but the code computes the opposite: after appending 5 valid blocks (every
`add_block` returned `true`, chain length 6), `verify_integrity` returns
`false`, because `_validate_block` compares every chain block against
`self.chain[-1]` — the current head — instead of that block's predecessor,
so the index check `block.index == previous_block.index + 1` fails for every
historical block. -/
theorem c1_verify_integrity_code_bug :
    c1Trace.1 = [true, true, true, true, true]
    ∧ c1Trace.2.chain.length = 6
    ∧ Blockchain.verify_integrity testHash c1Trace.2 = false := by
  refine ⟨by decide, by decide, by decide⟩

/-! ## Claim C6 -/

theorem filter_out_absent_id {ws : List Validator} {id : String}
    (hw : ∀ w ∈ ws, w.instance_id ≠ id) :
    ws.filter (fun w => !(w.instance_id == id)) = ws := by
  apply List.filter_eq_self.mpr
  intro w hwmem
  simp [hw w hwmem]

theorem active_after_deactivate {l : List (String × Validator)} {id : String}
    {v : Validator} (hv : List.lookup id l = some v)
    (hkeys : ∀ p ∈ l, (p : String × Validator).2.instance_id = p.1)
    (hnd : (l.map Prod.fst).Nodup) :
    ((dictSet l id { v with is_active := false }).map Prod.snd).filter
        (fun w => w.is_active)
      = ((l.map Prod.snd).filter (fun w => w.is_active)).filter
          (fun w => !(w.instance_id == id)) := by
  induction l with
  | nil => simp [List.lookup] at hv
  | cons p rest ih =>
      obtain ⟨k1, v1⟩ := p
      rw [List.map_cons, List.nodup_cons] at hnd
      have hmemrest : ∀ w ∈ (rest.map Prod.snd).filter (fun w => w.is_active),
          w.instance_id ≠ k1 := by
        intro w hwmem
        have hw2 : w ∈ rest.map Prod.snd := List.mem_of_mem_filter hwmem
        obtain ⟨q, hq, hqw⟩ := List.mem_map.mp hw2
        have hkey := hkeys q (by simp [hq])
        intro hcon
        have hq1 : q.1 ∈ rest.map Prod.fst := List.mem_map_of_mem Prod.fst hq
        have hqk : q.1 = k1 := by rw [← hkey, hqw, hcon]
        exact hnd.1 (hqk ▸ hq1)
      by_cases hk : id = k1
      · subst hk
        have hv1 : v1 = v := by
          simp [List.lookup] at hv
          exact hv
        subst hv1
        simp only [dictSet, beq_self_eq_true, if_true, List.map_cons]
        rw [List.filter_cons, List.filter_cons]
        cases hva : v1.is_active with
        | false =>
            simp only [Bool.false_eq_true, if_false]
            rw [filter_out_absent_id hmemrest]
        | true =>
            simp only [if_true, Bool.false_eq_true, if_false]
            rw [List.filter_cons]
            have hvid : v1.instance_id = id := hkeys (id, v1) (by simp)
            simp only [hvid, beq_self_eq_true, Bool.not_true, Bool.false_eq_true, if_false]
            rw [filter_out_absent_id hmemrest]
      · have hb : (id == k1) = false := beq_eq_false_iff_ne.mpr hk
        have hv2 : List.lookup id rest = some v := by
          simp [List.lookup, hb] at hv
          exact hv
        have hkeys2 : ∀ p ∈ rest, (p : String × Validator).2.instance_id = p.1 := by
          intro q hq
          exact hkeys q (by simp [hq])
        have goalrest := ih hv2 hkeys2 hnd.2
        simp only [dictSet, hb, Bool.false_eq_true, if_false, List.map_cons]
        rw [List.filter_cons, List.filter_cons]
        have hvid : v1.instance_id = k1 := hkeys (k1, v1) (by simp)
        cases hva : v1.is_active with
        | false =>
            simp only [Bool.false_eq_true, if_false]
            exact goalrest
        | true =>
            simp only [if_true]
            rw [List.filter_cons]
            have hnb : (v1.instance_id == id) = false := by
              rw [hvid]
              exact beq_eq_false_iff_ne.mpr (fun hcon => hk hcon.symm)
            simp only [hnb, Bool.not_false, if_true]
            rw [goalrest]

/-- Claim C6: with exactly 4 active validators, advancing the rotation
pointer exactly 4 times returns `get_current_validator` to the validator
that held the turn initially; `remove_validator` keeps the validator in the
registry, merely flagged inactive, and removes exactly it from the active
rotation; re-setting `is_active` restores the whole consensus state — in
particular the validator reappears at its original insertion position of the
rotation.  The registry hypotheses (`hkeys`, `hnd`) hold for every registry
built through `add_validator`. -/
theorem c6_round_robin_rotation (poa : ProofOfAuthority) (id : String) (v : Validator)
    (hlen : poa.active_validators.length = 4)
    (hv : List.lookup id poa.validators = some v)
    (hact : v.is_active = true)
    (hkeys : ∀ p ∈ poa.validators, (p : String × Validator).2.instance_id = p.1)
    (hnd : (poa.validators.map Prod.fst).Nodup) :
    poa.advance.advance.advance.advance.get_current_validator
        = poa.get_current_validator
    ∧ List.lookup id (poa.remove_validator id).2.validators
        = some { v with is_active := false }
    ∧ (poa.remove_validator id).2.active_validators
        = poa.active_validators.filter (fun w => !(w.instance_id == id))
    ∧ (poa.remove_validator id).2.set_validator_active id true = poa := by
  have hrm : (poa.remove_validator id).2
      = { poa with validators := dictSet poa.validators id { v with is_active := false } } := by
    simp [ProofOfAuthority.remove_validator, hv]
  refine ⟨?_, ?_, ?_, ?_⟩
  · simp only [ProofOfAuthority.advance, ProofOfAuthority.get_current_validator,
      ProofOfAuthority.active_validators]
    simp only [ProofOfAuthority.active_validators] at hlen
    rw [hlen]
    have h4 : (poa.current_validator_index + 1 + 1 + 1 + 1)
        = poa.current_validator_index + 4 := by omega
    rw [h4, Nat.add_mod_right]
  · rw [hrm]
    exact lookup_dictSet_self poa.validators id { v with is_active := false }
  · rw [hrm]
    simp only [ProofOfAuthority.active_validators]
    exact active_after_deactivate hv hkeys hnd
  · rw [hrm]
    have hlook : List.lookup id (dictSet poa.validators id { v with is_active := false })
        = some { v with is_active := false } := lookup_dictSet_self _ _ _
    simp only [ProofOfAuthority.set_validator_active, hlook]
    have hvv : { v with is_active := true } = v := by
      obtain ⟨a, b, c, d, e, f⟩ := v
      simp only [Validator.mk.injEq, and_true, true_and]
      simp at hact
      exact hact.symm
    have : dictSet (dictSet poa.validators id { v with is_active := false }) id
        { v with is_active := true } = poa.validators := by
      rw [dictSet_dictSet, hvv, dictSet_lookup_self hv]
    simp only [this]

/-- A concrete consensus state over the four default MAGI validators used to
instantiate claims C6 and C10. -/
def poaDefault : ProofOfAuthority :=
  ProofOfAuthority.init (Blockchain.init testHash "Melchior-001" 0 "GENESIS") 1000
    defaultValidators

/-- Witness for C6 on the default four-validator registry, deactivating and
reactivating Balthasar. -/
theorem c6_round_robin_rotation_witness :
    poaDefault.advance.advance.advance.advance.get_current_validator
        = poaDefault.get_current_validator
    ∧ List.lookup "Balthasar-001" (poaDefault.remove_validator "Balthasar-001").2.validators
        = some { instance_id := "Balthasar-001", name := "Balthasar",
                 address := "192.168.50.101:8545",
                 public_key := "balthasar_pubkey_placeholder", is_active := false,
                 last_block_time := none }
    ∧ (poaDefault.remove_validator "Balthasar-001").2.active_validators
        = poaDefault.active_validators.filter
            (fun w => !(w.instance_id == "Balthasar-001"))
    ∧ (poaDefault.remove_validator "Balthasar-001").2.set_validator_active
        "Balthasar-001" true = poaDefault :=
  c6_round_robin_rotation poaDefault "Balthasar-001"
    { instance_id := "Balthasar-001", name := "Balthasar",
      address := "192.168.50.101:8545", public_key := "balthasar_pubkey_placeholder",
      is_active := true, last_block_time := none }
    (by decide) (by decide) (by decide) (by decide) (by decide)

/-! ## Claim C3 -/

/-- Claim C3 counterexample: caller A holds `{cpu:300}` (so `used.cpu=300`),
then A requests `{cpu:200}`.  Per the claim the old allocation is credited
back before the capacity check, so the request must be admitted
(`300-300+200 ≤ 400` in every dimension) — but the code checks capacity
first (`300+200 > 400`) and rejects, leaving the state unchanged. -/
theorem c3_counterexample :
    let p1 : ResParams := { cpu := some 300, memory := some 0, storage := some 0,
                            instance_id := none }
    let p2 : ResParams := { cpu := some 200, memory := some 0, storage := some 0,
                            instance_id := none }
    let st1 := (ResourceAllocationContract.request_resources
      ResourceState.initial p1 "A" 10).2
    let r2 := ResourceAllocationContract.request_resources st1 p2 "A" 20
    (List.lookup "A" st1.allocations).map (fun a => a.cpu) = some 300
    ∧ st1.used = { cpu := 300, memory := 0, storage := 0 }
    ∧ (st1.used.cpu - 300 + 200 ≤ st1.limits.total_cpu
       ∧ st1.used.memory - 0 + 0 ≤ st1.limits.total_memory
       ∧ st1.used.storage - 0 + 0 ≤ st1.limits.total_storage)
    ∧ r2.1.success = false
    ∧ r2.1.error = some "Insufficient resources"
    ∧ r2.2 = st1 := by
  refine ⟨by decide, by decide, by decide, by decide, by decide, by decide⟩

/-- Claim C3 (amended): `request_resources` admits a request iff, in every
dimension, `used` as stored — the caller's old allocation NOT credited
back — plus the new request is within the limit; on rejection it returns the
remaining headroom `limit - used` per dimension and leaves the state
unchanged; on success it installs the new allocation and sets
`used := used - old + new` (so the replacement itself is atomic, only the
admission check double-counts the caller's old allocation). -/
theorem c3_request_resources_semantics (st : ResourceState) (params : ResParams)
    (caller : String) (now : Int) :
    ((ResourceAllocationContract.request_resources st params caller now).1.success = true
      ↔ (st.used.cpu + params.cpu.getD 0 ≤ st.limits.total_cpu
         ∧ st.used.memory + params.memory.getD 0 ≤ st.limits.total_memory
         ∧ st.used.storage + params.storage.getD 0 ≤ st.limits.total_storage))
    ∧ (¬(st.used.cpu + params.cpu.getD 0 ≤ st.limits.total_cpu
         ∧ st.used.memory + params.memory.getD 0 ≤ st.limits.total_memory
         ∧ st.used.storage + params.storage.getD 0 ≤ st.limits.total_storage) →
        (ResourceAllocationContract.request_resources st params caller now).1.error
            = some "Insufficient resources"
        ∧ (ResourceAllocationContract.request_resources st params caller now).1.available
            = some { cpu := st.limits.total_cpu - st.used.cpu,
                     memory := st.limits.total_memory - st.used.memory,
                     storage := st.limits.total_storage - st.used.storage }
        ∧ (ResourceAllocationContract.request_resources st params caller now).2 = st)
    ∧ ((st.used.cpu + params.cpu.getD 0 ≤ st.limits.total_cpu
         ∧ st.used.memory + params.memory.getD 0 ≤ st.limits.total_memory
         ∧ st.used.storage + params.storage.getD 0 ≤ st.limits.total_storage) →
        (ResourceAllocationContract.request_resources st params caller now).2.allocations
            = dictSet st.allocations caller
                { cpu := params.cpu.getD 0, memory := params.memory.getD 0,
                  storage := params.storage.getD 0, allocated_at := now }
        ∧ (ResourceAllocationContract.request_resources st params caller now).2.used
            = { cpu := st.used.cpu
                  - ((List.lookup caller st.allocations).getD
                      { cpu := 0, memory := 0, storage := 0, allocated_at := 0 }).cpu
                  + params.cpu.getD 0,
                memory := st.used.memory
                  - ((List.lookup caller st.allocations).getD
                      { cpu := 0, memory := 0, storage := 0, allocated_at := 0 }).memory
                  + params.memory.getD 0,
                storage := st.used.storage
                  - ((List.lookup caller st.allocations).getD
                      { cpu := 0, memory := 0, storage := 0, allocated_at := 0 }).storage
                  + params.storage.getD 0 }
        ∧ (ResourceAllocationContract.request_resources st params caller now).2.limits
            = st.limits) := by
  by_cases hfit : st.used.cpu + params.cpu.getD 0 ≤ st.limits.total_cpu
      ∧ st.used.memory + params.memory.getD 0 ≤ st.limits.total_memory
      ∧ st.used.storage + params.storage.getD 0 ≤ st.limits.total_storage
  · have hc1 : ¬(st.used.cpu + params.cpu.getD 0 > st.limits.total_cpu) := not_lt.mpr hfit.1
    have hc2 : ¬(st.used.memory + params.memory.getD 0 > st.limits.total_memory) :=
      not_lt.mpr hfit.2.1
    have hc3 : ¬(st.used.storage + params.storage.getD 0 > st.limits.total_storage) :=
      not_lt.mpr hfit.2.2
    cases hl : List.lookup caller st.allocations with
    | none =>
        simp [ResourceAllocationContract.request_resources, hc1, hc2, hc3, hl, hfit]
    | some old =>
        simp [ResourceAllocationContract.request_resources, hc1, hc2, hc3, hl, hfit]
  · have hgt : st.used.cpu + params.cpu.getD 0 > st.limits.total_cpu
        ∨ st.used.memory + params.memory.getD 0 > st.limits.total_memory
        ∨ st.used.storage + params.storage.getD 0 > st.limits.total_storage := by
      rcases not_and_or.mp hfit with hh | hh
      · exact Or.inl (not_le.mp hh)
      · rcases not_and_or.mp hh with hh2 | hh2
        · exact Or.inr (Or.inl (not_le.mp hh2))
        · exact Or.inr (Or.inr (not_le.mp hh2))
    have hcond : (decide (st.used.cpu + params.cpu.getD 0 > st.limits.total_cpu)
        || decide (st.used.memory + params.memory.getD 0 > st.limits.total_memory)
        || decide (st.used.storage + params.storage.getD 0 > st.limits.total_storage))
          = true := by
      rcases hgt with hh | hh | hh <;> simp [hh]
    simp [ResourceAllocationContract.request_resources, hcond, hfit]

/-- Witness for the amended C3: a first request by "A" against the initial
state is admitted and installs exactly the requested quantities. -/
theorem c3_request_resources_semantics_witness :
    (ResourceAllocationContract.request_resources ResourceState.initial
        { cpu := some 50, memory := some 1024, storage := some 5120,
          instance_id := none } "A" 7).1.success = true
    ∧ (ResourceAllocationContract.request_resources ResourceState.initial
        { cpu := some 50, memory := some 1024, storage := some 5120,
          instance_id := none } "A" 7).2.used
      = { cpu := 50, memory := 1024, storage := 5120 } := by
  have h := c3_request_resources_semantics ResourceState.initial
    { cpu := some 50, memory := some 1024, storage := some 5120, instance_id := none }
    "A" 7
  have hfits : ResourceState.initial.used.cpu + (some 50 : Option Int).getD 0
        ≤ ResourceState.initial.limits.total_cpu
      ∧ ResourceState.initial.used.memory + (some 1024 : Option Int).getD 0
        ≤ ResourceState.initial.limits.total_memory
      ∧ ResourceState.initial.used.storage + (some 5120 : Option Int).getD 0
        ≤ ResourceState.initial.limits.total_storage := by
    refine ⟨by decide, by decide, by decide⟩
  refine ⟨h.1.mpr hfits, ?_⟩
  rw [(h.2.2 hfits).2.1]
  decide

/-! ## Claim C8 -/

/-- Claim C8 counterexample: with an empty (or missing) `entity_name`,
`acquire_lock` fails with "entity_name required" — and without reporting any
holder — even though no lock entry for that entity exists, contradicting the
claimed "fails if and only if an entry with a future `expires` exists". -/
theorem c8_counterexample :
    let r := MemoryLockContract.acquire_lock MemoryLockState.initial
      { entity_name := some "", duration_ms := none, extension_ms := none } "A" 100
    MemoryLockState.initial.locks = []
    ∧ r.1.success = false
    ∧ r.1.error = some "entity_name required"
    ∧ r.1.holder = none
    ∧ r.2 = MemoryLockState.initial := by
  refine ⟨by decide, by decide, by decide, by decide, by decide⟩

/-- Claim C8 (amended: for params carrying a present, nonempty entity name —
an empty or missing name short-circuits with "entity_name required"):
`acquire_lock` fails, reporting holder and expiry, iff an entry for the
entity exists with `expires` strictly in the future; otherwise it installs
`{holder := caller, acquired := now, expires := now + duration_ms*1000}`
(overwriting an expired entry) and succeeds.  `release_lock` removes the
entry iff the caller is the stored holder; a non-holder release, or a
release of an absent entry, fails and leaves the lock table unchanged. -/
theorem c8_lock_semantics (st : MemoryLockState) (aparams rparams : LockParams)
    (caller rcaller : String) (now : Int)
    (hae : strFalsy aparams.entity_name = false)
    (hre : strFalsy rparams.entity_name = false) :
    (∀ lock, List.lookup (aparams.entity_name.getD "") st.locks = some lock →
        now < lock.expires →
        (MemoryLockContract.acquire_lock st aparams caller now).1.success = false
        ∧ (MemoryLockContract.acquire_lock st aparams caller now).1.holder
            = some lock.holder
        ∧ (MemoryLockContract.acquire_lock st aparams caller now).1.expires
            = some lock.expires
        ∧ (MemoryLockContract.acquire_lock st aparams caller now).2 = st)
    ∧ ((∀ lock, List.lookup (aparams.entity_name.getD "") st.locks = some lock →
          lock.expires ≤ now) →
        (MemoryLockContract.acquire_lock st aparams caller now).1.success = true
        ∧ (MemoryLockContract.acquire_lock st aparams caller now).2.locks
            = dictSet st.locks (aparams.entity_name.getD "")
                { holder := caller, acquired := now,
                  expires := now + (aparams.duration_ms.getD st.lock_duration_ms) * 1000 })
    ∧ (∀ lock, List.lookup (rparams.entity_name.getD "") st.locks = some lock →
        (lock.holder = rcaller →
          (MemoryLockContract.release_lock st rparams rcaller).1.success = true
          ∧ (MemoryLockContract.release_lock st rparams rcaller).2.locks
              = eraseKey (rparams.entity_name.getD "") st.locks)
        ∧ (lock.holder ≠ rcaller →
          (MemoryLockContract.release_lock st rparams rcaller).1.success = false
          ∧ (MemoryLockContract.release_lock st rparams rcaller).2 = st))
    ∧ (List.lookup (rparams.entity_name.getD "") st.locks = none →
        (MemoryLockContract.release_lock st rparams rcaller).1.success = false
        ∧ (MemoryLockContract.release_lock st rparams rcaller).2 = st) := by
  refine ⟨?_, ?_, ?_, ?_⟩
  · intro lock hl hfut
    have hexp : (lock.expires > now) = True := eq_true hfut
    simp [MemoryLockContract.acquire_lock, hae, hl, hfut]
  · intro hnofut
    cases hl : List.lookup (aparams.entity_name.getD "") st.locks with
    | none => simp [MemoryLockContract.acquire_lock, hae, hl]
    | some lock =>
        have hexp : ¬(lock.expires > now) := not_lt.mpr (hnofut lock hl)
        simp [MemoryLockContract.acquire_lock, hae, hl, hexp]
  · intro lock hl
    constructor
    · intro hheld
      simp [MemoryLockContract.release_lock, hre, hl, hheld]
    · intro hnot
      simp [MemoryLockContract.release_lock, hre, hl, hnot]
  · intro hl
    simp [MemoryLockContract.release_lock, hre, hl]

/-- Witness for the amended C8 on a concrete one-entry lock table: B cannot
steal the unexpired lock held by A, B cannot release it, A can. -/
theorem c8_lock_semantics_witness :
    let st : MemoryLockState :=
      { locks := [("E", { holder := "A", acquired := 0, expires := 1000 })],
        lock_duration_ms := 30000 }
    let p : LockParams := { entity_name := some "E", duration_ms := none,
                            extension_ms := none }
    (MemoryLockContract.acquire_lock st p "B" 500).1.success = false
    ∧ (MemoryLockContract.acquire_lock st p "B" 500).1.holder = some "A"
    ∧ (MemoryLockContract.release_lock st p "B").1.success = false
    ∧ (MemoryLockContract.release_lock st p "A").1.success = true
    ∧ (MemoryLockContract.release_lock st p "A").2.locks = [] := by
  intro st p
  have h := c8_lock_semantics st p p "B" "B" 500 rfl rfl
  have h2 := c8_lock_semantics st p p "B" "A" 500 rfl rfl
  have hlook : List.lookup "E" st.locks
      = some { holder := "A", acquired := 0, expires := 1000 } := rfl
  have hblock := h.1 _ hlook (by decide)
  have hrelB := (h.2.2.1 _ hlook).2 (by decide)
  have hrelA := (h2.2.2.1 _ hlook).1 rfl
  refine ⟨hblock.1, hblock.2.1, hrelB.1, hrelA.1, ?_⟩
  rw [hrelA.2]
  decide

/-! ## Claim C10 -/

/-- Claim C10: when `ProofOfAuthority.create_block` succeeds (returns a
block), the block is NOT appended — the chain is unchanged — the block holds
exactly the up-to-10 oldest pending transactions, which are removed from the
pending list while the transaction-pool index is untouched (so they are
still present there whenever they were before, as holds for every pool
populated by `create_transaction`), the creating validator's
`last_block_time` becomes the block's timestamp, the rotation pointer
advances by exactly one, and nothing else in the consensus or ledger state
changes. -/
theorem c10_create_block_frame (h : String → String) (poa : ProofOfAuthority)
    (id : String) (nowMicros tsMicros : Int) (block : Block)
    (poa2 : ProofOfAuthority)
    (hsucc : ProofOfAuthority.create_block h poa id nowMicros tsMicros
      = Except.ok (some block, poa2)) :
    poa2.blockchain.chain = poa.blockchain.chain
    ∧ block.transactions = poa.blockchain.pending_transactions.take 10
    ∧ poa2.blockchain.pending_transactions
        = poa.blockchain.pending_transactions.drop 10
    ∧ poa2.blockchain.transaction_pool = poa.blockchain.transaction_pool
    ∧ poa2.blockchain.instance_id = poa.blockchain.instance_id
    ∧ poa2.current_validator_index = poa.current_validator_index + 1
    ∧ poa2.block_time = poa.block_time
    ∧ block.timestamp_micros = tsMicros
    ∧ (∃ v, List.lookup id poa.validators = some v
        ∧ poa2.validators = dictSet poa.validators id
            { v with last_block_time := some block.timestamp_micros })
    ∧ (∀ tx ∈ block.transactions, tx ∈ poa.blockchain.pending_transactions)
    ∧ ((∀ tx ∈ poa.blockchain.pending_transactions,
          (List.lookup tx.tx_id poa.blockchain.transaction_pool).isSome) →
        ∀ tx ∈ block.transactions,
          (List.lookup tx.tx_id poa2.blockchain.transaction_pool).isSome) := by
  by_cases hcan : poa.can_create_block id nowMicros = true
  · rw [ProofOfAuthority.create_block] at hsucc
    simp only [hcan, Bool.not_true, Bool.false_eq_true, if_false] at hsucc
    cases hv : List.lookup id poa.validators with
    | none => rw [hv] at hsucc; simp at hsucc
    | some v =>
        rw [hv] at hsucc
        by_cases hact : v.is_active = true
        · simp only [hact, Bool.not_true, Bool.false_eq_true, if_false] at hsucc
          rw [Blockchain.create_block] at hsucc
          by_cases hemp : poa.blockchain.pending_transactions.take 10 = []
          · simp [hemp] at hsucc
          · have hempb : (poa.blockchain.pending_transactions.take 10).isEmpty = false := by
              cases hx : poa.blockchain.pending_transactions.take 10 with
              | nil => exact absurd hx hemp
              | cons a l => simp
            simp only [hempb, Bool.false_eq_true, if_false] at hsucc
            cases hlast : poa.blockchain.chain.getLast? with
            | none => rw [hlast] at hsucc; simp at hsucc
            | some prev =>
                rw [hlast] at hsucc
                simp only [Except.ok.injEq, Prod.mk.injEq, Option.some.injEq] at hsucc
                obtain ⟨hb, hp⟩ := hsucc
                subst hb
                subst hp
                refine ⟨rfl, rfl, rfl, rfl, rfl, rfl, rfl, rfl, ⟨v, rfl, by rw [hact]⟩, ?_, ?_⟩
                · intro tx htx
                  exact List.take_subset 10 _ htx
                · intro hpool tx htx
                  exact hpool tx (List.take_subset 10 _ htx)
        · simp [hact] at hsucc
  · rw [ProofOfAuthority.create_block] at hsucc
    simp [hcan] at hsucc

/-- A consensus state over the default validators with one pending
transaction, used to exercise C10 concretely. -/
def c10Poa : ProofOfAuthority :=
  let bc0 := Blockchain.init testHash "Melchior-001" 0 "GENESIS"
  let bc1 := (Blockchain.create_transaction testHash bc0 "test"
    [("test", Json.bool true)] 1000 none).2
  ProofOfAuthority.init bc1 1000 defaultValidators

/-- The concrete successful `create_block` run for the C10 witness. -/
def c10Run : Except String (Option Block × ProofOfAuthority) :=
  ProofOfAuthority.create_block testHash c10Poa "Melchior-001" 2000000 3000000

/-- The block produced by `c10Run`. -/
def c10Block : Block :=
  match c10Run with
  | Except.ok (some b, _) => b
  | _ => Block.make testHash 0 0 "" "" [] 0

/-- The consensus state after `c10Run`. -/
def c10After : ProofOfAuthority :=
  match c10Run with
  | Except.ok (_, p) => p
  | _ => c10Poa

/-- Witness for C10: the concrete run succeeds, and the frame conditions
hold for it. -/
theorem c10_create_block_frame_witness :
    c10Run = Except.ok (some c10Block, c10After)
    ∧ c10After.blockchain.chain = c10Poa.blockchain.chain
    ∧ c10Block.transactions = c10Poa.blockchain.pending_transactions.take 10
    ∧ c10After.blockchain.pending_transactions
        = c10Poa.blockchain.pending_transactions.drop 10
    ∧ c10After.blockchain.transaction_pool = c10Poa.blockchain.transaction_pool
    ∧ c10After.current_validator_index = c10Poa.current_validator_index + 1 := by
  have hrun : c10Run = Except.ok (some c10Block, c10After) := rfl
  have h := c10_create_block_frame testHash c10Poa "Melchior-001" 2000000 3000000
    c10Block c10After hrun
  exact ⟨hrun, h.1, h.2.1, h.2.2.1, h.2.2.2.1, h.2.2.2.2.2.1⟩

/-! ## Claim C4 -/

theorem charListLt_asymm : ∀ l1 l2 : List Char,
    charListLt l1 l2 = true → charListLt l2 l1 = false
  | [], [] => by simp [charListLt]
  | [], _ :: _ => by simp [charListLt]
  | _ :: _, [] => by simp [charListLt]
  | a :: as, b :: bs => by
      by_cases hab : a.toNat < b.toNat
      · have hba : ¬b.toNat < a.toNat := by omega
        simp [charListLt, hab, hba]
      · by_cases hba : b.toNat < a.toNat
        · simp [charListLt, hab, hba]
        · simp [charListLt, hab, hba]
          exact charListLt_asymm as bs

theorem charListLt_trans : ∀ l1 l2 l3 : List Char,
    charListLt l1 l2 = true → charListLt l2 l3 = true → charListLt l1 l3 = true
  | [], [], _ => by simp [charListLt]
  | [], _ :: _, [] => by simp [charListLt]
  | [], _ :: _, _ :: _ => by simp [charListLt]
  | _ :: _, [], _ => by simp [charListLt]
  | _ :: _, _ :: _, [] => by simp [charListLt]
  | a :: as, b :: bs, c :: cs => by
      by_cases hab : a.toNat < b.toNat
      · by_cases hbc : b.toNat < c.toNat
        · have hac : a.toNat < c.toNat := by omega
          simp [charListLt, hab, hbc, hac]
        · by_cases hcb : c.toNat < b.toNat
          · simp [charListLt, hbc, hcb]
          · have hac : a.toNat < c.toNat := by omega
            simp [charListLt, hab, hac]
      · by_cases hba : b.toNat < a.toNat
        · simp [charListLt, hab, hba]
        · by_cases hbc : b.toNat < c.toNat
          · have hac : a.toNat < c.toNat := by omega
            simp [charListLt, hab, hbc, hac]
          · by_cases hcb : c.toNat < b.toNat
            · simp [charListLt, hbc, hcb]
            · have hac : ¬a.toNat < c.toNat := by omega
              have hca : ¬c.toNat < a.toNat := by omega
              simp [charListLt, hab, hba, hbc, hcb, hac, hca]
              exact charListLt_trans as bs cs

theorem charListLt_conn : ∀ l1 l2 : List Char,
    charListLt l1 l2 = false → charListLt l2 l1 = false → l1 = l2
  | [], [] => by simp
  | [], _ :: _ => by simp [charListLt]
  | _ :: _, [] => by simp [charListLt]
  | a :: as, b :: bs => by
      by_cases hab : a.toNat < b.toNat
      · simp [charListLt, hab]
      · by_cases hba : b.toNat < a.toNat
        · simp [charListLt, hab, hba]
        · have hchar : a = b := by
            apply Char.eq_of_val_eq
            apply UInt32.eq_of_toBitVec_eq
            apply BitVec.toNat_injective
            have hab2 : ¬a.val.toBitVec.toNat < b.val.toBitVec.toNat := hab
            have hba2 : ¬b.val.toBitVec.toNat < a.val.toBitVec.toNat := hba
            omega
          subst hchar
          simp [charListLt, hab, hba]
          exact charListLt_conn as bs

theorem strLeB_total (a b : String) : strLeB a b = true ∨ strLeB b a = true := by
  by_cases hlt : strLtB b a = true
  · right
    have := charListLt_asymm b.data a.data hlt
    simp [strLeB, strLtB, this]
  · left
    simp [strLeB, strLtB]
    simpa [strLtB] using hlt

theorem strLeB_antisymm {a b : String} (hab : strLeB a b = true)
    (hba : strLeB b a = true) : a = b := by
  have h1 : charListLt b.data a.data = false := by
    have hh := hab
    simp [strLeB, strLtB] at hh
    exact hh
  have h2 : charListLt a.data b.data = false := by
    have hh := hba
    simp [strLeB, strLtB] at hh
    exact hh
  have hdata := charListLt_conn a.data b.data h2 h1
  cases a
  cases b
  congr 1

theorem strLeB_trans {a b c : String} (hab : strLeB a b = true)
    (hbc : strLeB b c = true) : strLeB a c = true := by
  simp only [strLeB, strLtB, Bool.not_eq_true'] at hab hbc ⊢
  by_cases hca : charListLt c.data a.data = true
  · exfalso
    by_cases h1 : charListLt a.data b.data = true
    · exact absurd (charListLt_trans c.data a.data b.data hca h1)
        (by simp [hbc])
    · have : a.data = b.data :=
        charListLt_conn a.data b.data (by simpa using h1) hab
      rw [this] at hca
      simp [hca] at hbc
  · simpa using hca

/-- The key order used by `sortPairs`, as a relation on rendered fields. -/
def keyLeP (p q : String × String) : Prop := strLeB p.1 q.1 = true

theorem insertPair_perm (p : String × String) :
    ∀ l : List (String × String), (insertPair p l).Perm (p :: l)
  | [] => by simp [insertPair]
  | q :: qs => by
      by_cases hle : strLeB p.1 q.1 = true
      · simp [insertPair, hle]
      · simp only [insertPair, hle, Bool.false_eq_true, if_false]
        exact ((insertPair_perm p qs).cons q).trans (List.Perm.swap p q qs)

theorem sortPairs_perm : ∀ l : List (String × String), (sortPairs l).Perm l
  | [] => by simp [sortPairs]
  | p :: ps => by
      exact (insertPair_perm p (sortPairs ps)).trans ((sortPairs_perm ps).cons p)

theorem insertPair_pairwise (p : String × String) :
    ∀ l : List (String × String), List.Pairwise keyLeP l →
      List.Pairwise keyLeP (insertPair p l)
  | [] => by simp [insertPair, keyLeP]
  | q :: qs => by
      intro hl
      rw [List.pairwise_cons] at hl
      by_cases hle : strLeB p.1 q.1 = true
      · simp only [insertPair, hle, if_true]
        rw [List.pairwise_cons]
        refine ⟨?_, List.pairwise_cons.mpr hl⟩
        intro r hr
        rcases List.mem_cons.mp hr with hr | hr
        · subst hr; exact hle
        · exact strLeB_trans hle (hl.1 r hr)
      · have hqp : strLeB q.1 p.1 = true := by
          rcases strLeB_total p.1 q.1 with hh | hh
          · exact absurd hh hle
          · exact hh
        simp only [insertPair, hle, Bool.false_eq_true, if_false]
        rw [List.pairwise_cons]
        refine ⟨?_, insertPair_pairwise p qs hl.2⟩
        intro r hr
        have hr2 : r ∈ p :: qs := (insertPair_perm p qs).subset hr
        rcases List.mem_cons.mp hr2 with hr2 | hr2
        · subst hr2; exact hqp
        · exact hl.1 r hr2

theorem sortPairs_pairwise : ∀ l : List (String × String),
    List.Pairwise keyLeP (sortPairs l)
  | [] => by simp [sortPairs]
  | p :: ps => insertPair_pairwise p (sortPairs ps) (sortPairs_pairwise ps)

theorem sorted_perm_keys_nodup_eq : ∀ l1 l2 : List (String × String),
    l1.Perm l2 → List.Pairwise keyLeP l1 → List.Pairwise keyLeP l2 →
    (l1.map Prod.fst).Nodup → l1 = l2
  | [], l2 => fun hp _ _ _ => (hp.symm.eq_nil).symm ▸ rfl
  | a :: t1, [] => fun hp _ _ _ => absurd hp.eq_nil (by simp)
  | a :: t1, b :: t2 => fun hp h1 h2 hnd => by
      rw [List.pairwise_cons] at h1 h2
      rw [List.map_cons, List.nodup_cons] at hnd
      have hab : a = b := by
        have ha2 : a ∈ b :: t2 := hp.subset (List.mem_cons_self a t1)
        rcases List.mem_cons.mp ha2 with hh | hh
        · exact hh
        · have hba : keyLeP b a := h2.1 a hh
          have hb1 : b ∈ a :: t1 := hp.symm.subset (List.mem_cons_self b t2)
          rcases List.mem_cons.mp hb1 with hh2 | hh2
          · exact hh2.symm
          · have habk : keyLeP a b := h1.1 b hh2
            have hkey : a.1 = b.1 := strLeB_antisymm habk hba
            have hmem : b.1 ∈ t1.map Prod.fst := List.mem_map_of_mem Prod.fst hh2
            rw [← hkey] at hmem
            exact absurd hmem hnd.1
      subst hab
      have htail := hp.cons_inv
      have := sorted_perm_keys_nodup_eq t1 t2 htail h1.2 h2.2 hnd.2
      rw [this]

theorem renderFields_eq_map : ∀ fs : List (String × Json),
    renderFields fs = fs.map (fun p => (p.1, dumpsJson p.2))
  | [] => rfl
  | (k, v) :: fs => by
      simp [renderFields, renderFields_eq_map fs]

/-- Canonicalization: serializing a JSON object is invariant under
permutation of its field list, provided the keys are distinct (as they are
in any Python dict). -/
theorem dumpsJson_obj_perm {d1 d2 : List (String × Json)} (hperm : d1.Perm d2)
    (hnd : (d1.map Prod.fst).Nodup) :
    dumpsJson (Json.obj d1) = dumpsJson (Json.obj d2) := by
  have hr : (renderFields d1).Perm (renderFields d2) := by
    rw [renderFields_eq_map, renderFields_eq_map]
    exact hperm.map _
  have hkeys : (renderFields d1).map Prod.fst = d1.map Prod.fst := by
    rw [renderFields_eq_map, List.map_map]
    rfl
  have hnd1 : ((renderFields d1).map Prod.fst).Nodup := by
    rw [hkeys]; exact hnd
  have hnds : ((sortPairs (renderFields d1)).map Prod.fst).Nodup :=
    (((sortPairs_perm (renderFields d1)).map Prod.fst).nodup_iff).mpr hnd1
  have hsp : (sortPairs (renderFields d1)).Perm (sortPairs (renderFields d2)) :=
    ((sortPairs_perm (renderFields d1)).trans hr).trans
      (sortPairs_perm (renderFields d2)).symm
  have heq : sortPairs (renderFields d1) = sortPairs (renderFields d2) :=
    sorted_perm_keys_nodup_eq _ _ hsp (sortPairs_pairwise _) (sortPairs_pairwise _) hnds
  simp [dumpsJson, heq]

/-- Claim C4: `Transaction` construction generates
`tx_id = "{timestamp_micros}-{instance_id}-{first 8 chars of
sha256(operation ++ key-sorted JSON of data)}"` and `data_hash = sha256 of
the key-sorted JSON of {operation, data, timestamp_micros, instance_id}`;
hence two constructions from equal inputs — data maps equal as key-value
sets, i.e. permutations with distinct keys — produce identical `tx_id` and
`data_hash`. -/
theorem c4_transaction_identity (h : String → String) (op : String)
    (d1 d2 : List (String × Json)) (ts : Int) (inst : String)
    (hperm : d1.Perm d2) (hnd : (d1.map Prod.fst).Nodup) :
    (Transaction.make h op d1 ts inst).tx_id
        = toString ts ++ "-" ++ inst ++ "-" ++ (h (op ++ dumpsJson (Json.obj d1))).take 8
    ∧ (Transaction.make h op d1 ts inst).data_hash
        = h (dumpsJson (Json.obj
            [("operation", Json.str op), ("data", Json.obj d1),
             ("timestamp_micros", Json.int ts), ("instance_id", Json.str inst)]))
    ∧ (Transaction.make h op d1 ts inst).tx_id = (Transaction.make h op d2 ts inst).tx_id
    ∧ (Transaction.make h op d1 ts inst).data_hash
        = (Transaction.make h op d2 ts inst).data_hash := by
  have hobj := dumpsJson_obj_perm hperm hnd
  refine ⟨rfl, rfl, ?_, ?_⟩
  · simp [Transaction.make, hobj]
  · simp only [Transaction.make, calcDataHash]
    congr 1
    have hrf : renderFields
        [("operation", Json.str op), ("data", Json.obj d1),
         ("timestamp_micros", Json.int ts), ("instance_id", Json.str inst)]
        = renderFields
        [("operation", Json.str op), ("data", Json.obj d2),
         ("timestamp_micros", Json.int ts), ("instance_id", Json.str inst)] := by
      simp [renderFields, hobj]
    simp only [dumpsJson]
    rw [hrf]

/-- Witness for C4: two field orders of the same two-key map yield the same
`tx_id` and `data_hash`. -/
theorem c4_transaction_identity_witness :
    (Transaction.make testHash "create_entity"
        [("type", Json.str "T"), ("name", Json.str "E")] 7 "TEST-001").tx_id
      = (Transaction.make testHash "create_entity"
        [("name", Json.str "E"), ("type", Json.str "T")] 7 "TEST-001").tx_id
    ∧ (Transaction.make testHash "create_entity"
        [("type", Json.str "T"), ("name", Json.str "E")] 7 "TEST-001").data_hash
      = (Transaction.make testHash "create_entity"
        [("name", Json.str "E"), ("type", Json.str "T")] 7 "TEST-001").data_hash := by
  have h := c4_transaction_identity testHash "create_entity"
    [("type", Json.str "T"), ("name", Json.str "E")]
    [("name", Json.str "E"), ("type", Json.str "T")] 7 "TEST-001"
    (List.Perm.swap ("name", Json.str "E") ("type", Json.str "T") [])
    (by simp)
  exact ⟨h.2.2.1, h.2.2.2⟩

/-! ## Claim C9 -/

/-- The four operations of the resource-allocation contract, as dispatched
by its `execute`. -/
inductive ResOp where
  | request (params : ResParams) (caller : String) (now : Int)
  | release (caller : String)
  | getAlloc (params : ResParams)
  | getUsage

/-- The state transition of one contract call (the read-only calls return
the state unchanged, as their embeddings do not touch it). -/
def resStep (st : ResourceState) : ResOp → ResourceState
  | ResOp.request p caller now =>
      (ResourceAllocationContract.request_resources st p caller now).2
  | ResOp.release caller => (ResourceAllocationContract.release_resources st caller).2
  | ResOp.getAlloc _ => st
  | ResOp.getUsage => st

/-- Sum of one dimension over all allocation entries. -/
def allocSum (f : ResAlloc → Int) : List (String × ResAlloc) → Int
  | [] => 0
  | p :: rest => f p.2 + allocSum f rest

/-- The C9 invariant: fixed limits, distinct keys, entrywise-nonnegative
allocations, `used` equal to the per-dimension sum of the allocation map,
and `0 ≤ used ≤ limit` in every dimension. -/
def ResInv (st : ResourceState) : Prop :=
  st.limits = ResourceState.initial.limits
  ∧ (st.allocations.map Prod.fst).Nodup
  ∧ (∀ p ∈ st.allocations,
      0 ≤ (p : String × ResAlloc).2.cpu ∧ 0 ≤ p.2.memory ∧ 0 ≤ p.2.storage)
  ∧ st.used.cpu = allocSum (fun a => a.cpu) st.allocations
  ∧ st.used.memory = allocSum (fun a => a.memory) st.allocations
  ∧ st.used.storage = allocSum (fun a => a.storage) st.allocations
  ∧ 0 ≤ st.used.cpu ∧ st.used.cpu ≤ st.limits.total_cpu
  ∧ 0 ≤ st.used.memory ∧ st.used.memory ≤ st.limits.total_memory
  ∧ 0 ≤ st.used.storage ∧ st.used.storage ≤ st.limits.total_storage

/-- The unconditional part of the C9 invariant: fixed limits, distinct keys,
and `used` equal to the per-dimension sum of the allocation map.  The code
maintains this bookkeeping for every request, including negative ones. -/
def ResInvSum (st : ResourceState) : Prop :=
  st.limits = ResourceState.initial.limits
  ∧ (st.allocations.map Prod.fst).Nodup
  ∧ st.used.cpu = allocSum (fun a => a.cpu) st.allocations
  ∧ st.used.memory = allocSum (fun a => a.memory) st.allocations
  ∧ st.used.storage = allocSum (fun a => a.storage) st.allocations

/-- The claim's proviso: request calls pass nonnegative quantities. -/
def reqNonneg : ResOp → Prop
  | ResOp.request p _ _ =>
      0 ≤ p.cpu.getD 0 ∧ 0 ≤ p.memory.getD 0 ∧ 0 ≤ p.storage.getD 0
  | _ => True

theorem allocSum_nonneg (f : ResAlloc → Int) : ∀ l : List (String × ResAlloc),
    (∀ p ∈ l, 0 ≤ f (p : String × ResAlloc).2) → 0 ≤ allocSum f l
  | [] => fun _ => le_refl 0
  | p :: rest => fun hf => by
      have h1 := hf p (by simp)
      have h2 := allocSum_nonneg f rest (fun q hq => hf q (by simp [hq]))
      simp only [allocSum]
      omega

theorem allocSum_dictSet (f : ResAlloc → Int) :
    ∀ (l : List (String × ResAlloc)) (k : String) (v : ResAlloc),
    allocSum f (dictSet l k v)
      = allocSum f l
        - (match List.lookup k l with | some old => f old | none => 0) + f v
  | [] => by intro k v; simp [dictSet, allocSum, List.lookup]
  | (k1, v1) :: rest => by
      intro k v
      by_cases hk : k = k1
      · subst hk
        simp [dictSet, allocSum, List.lookup]
        ring
      · have hb : (k == k1) = false := beq_eq_false_iff_ne.mpr hk
        have ih := allocSum_dictSet f rest k v
        simp only [dictSet, hb, Bool.false_eq_true, if_false, allocSum, List.lookup, ih]
        cases hl : List.lookup k rest with
        | none => ring
        | some old => ring

theorem allocSum_dictSet_none (f : ResAlloc → Int) {l : List (String × ResAlloc)}
    {k : String} (v : ResAlloc) (hl : List.lookup k l = none) :
    allocSum f (dictSet l k v) = allocSum f l + f v := by
  have h := allocSum_dictSet f l k v
  rw [hl] at h
  simpa using h

theorem allocSum_dictSet_some (f : ResAlloc → Int) {l : List (String × ResAlloc)}
    {k : String} (v : ResAlloc) {old : ResAlloc}
    (hl : List.lookup k l = some old) :
    allocSum f (dictSet l k v) = allocSum f l - f old + f v := by
  have h := allocSum_dictSet f l k v
  rw [hl] at h
  simpa using h

theorem allocSum_eraseKey (f : ResAlloc → Int) :
    ∀ (l : List (String × ResAlloc)) (k : String) (v : ResAlloc),
    List.lookup k l = some v →
    allocSum f (eraseKey k l) = allocSum f l - f v
  | [] => by intro k v hv; simp [List.lookup] at hv
  | (k1, v1) :: rest => by
      intro k v hv
      by_cases hk : k = k1
      · subst hk
        simp [List.lookup] at hv
        subst hv
        simp [eraseKey, allocSum]
      · have hb : (k == k1) = false := beq_eq_false_iff_ne.mpr hk
        simp only [List.lookup, hb, Bool.false_eq_true, if_false] at hv
        have ih := allocSum_eraseKey f rest k v hv
        simp only [eraseKey, hb, Bool.false_eq_true, if_false, allocSum, ih]
        ring

theorem resStep_inv (st : ResourceState) (op : ResOp) (hinv : ResInv st)
    (hop : reqNonneg op) : ResInv (resStep st op) := by
  obtain ⟨hlim, hnd, hpos, hcpu, hmem, hsto, hb1, hb2, hb3, hb4, hb5, hb6⟩ := hinv
  cases op with
  | getAlloc p => exact ⟨hlim, hnd, hpos, hcpu, hmem, hsto, hb1, hb2, hb3, hb4, hb5, hb6⟩
  | getUsage => exact ⟨hlim, hnd, hpos, hcpu, hmem, hsto, hb1, hb2, hb3, hb4, hb5, hb6⟩
  | release caller =>
      simp only [resStep, ResourceAllocationContract.release_resources]
      cases hl : List.lookup caller st.allocations with
      | none => exact ⟨hlim, hnd, hpos, hcpu, hmem, hsto, hb1, hb2, hb3, hb4, hb5, hb6⟩
      | some a =>
          have hmema := lookup_mem hl
          have hapos : 0 ≤ a.cpu ∧ 0 ≤ a.memory ∧ 0 ≤ a.storage :=
            hpos (caller, a) hmema
          have hsub := eraseKey_sublist caller st.allocations
          refine ⟨hlim, ?_, ?_, ?_, ?_, ?_, ?_, ?_, ?_, ?_, ?_, ?_⟩
          · exact ((hsub.map Prod.fst).nodup) hnd
          · intro q hq
            exact hpos q (hsub.subset hq)
          · simp [allocSum_eraseKey _ _ _ _ hl, hcpu]
          · simp [allocSum_eraseKey _ _ _ _ hl, hmem]
          · simp [allocSum_eraseKey _ _ _ _ hl, hsto]
          · have := allocSum_nonneg (fun a => a.cpu) (eraseKey caller st.allocations)
              (fun q hq => (hpos q (hsub.subset hq)).1)
            simp only [allocSum_eraseKey _ _ _ _ hl] at this
            simpa [hcpu] using this
          · have hstep : st.used.cpu - a.cpu ≤ st.used.cpu := by
              have := hapos.1
              omega
            exact le_trans hstep hb2
          · have := allocSum_nonneg (fun a => a.memory) (eraseKey caller st.allocations)
              (fun q hq => (hpos q (hsub.subset hq)).2.1)
            simp only [allocSum_eraseKey _ _ _ _ hl] at this
            simpa [hmem] using this
          · have hstep : st.used.memory - a.memory ≤ st.used.memory := by
              have := hapos.2.1
              omega
            exact le_trans hstep hb4
          · have := allocSum_nonneg (fun a => a.storage) (eraseKey caller st.allocations)
              (fun q hq => (hpos q (hsub.subset hq)).2.2)
            simp only [allocSum_eraseKey _ _ _ _ hl] at this
            simpa [hsto] using this
          · have hstep : st.used.storage - a.storage ≤ st.used.storage := by
              have := hapos.2.2
              omega
            exact le_trans hstep hb6
  | request p caller now =>
      obtain ⟨hq1, hq2, hq3⟩ := hop
      by_cases hcond : (decide (st.used.cpu + p.cpu.getD 0 > st.limits.total_cpu)
          || decide (st.used.memory + p.memory.getD 0 > st.limits.total_memory)
          || decide (st.used.storage + p.storage.getD 0 > st.limits.total_storage)) = true
      · simp only [resStep, ResourceAllocationContract.request_resources]
        rw [if_pos hcond]
        exact ⟨hlim, hnd, hpos, hcpu, hmem, hsto, hb1, hb2, hb3, hb4, hb5, hb6⟩
      · have hle1 : st.used.cpu + p.cpu.getD 0 ≤ st.limits.total_cpu := by
          by_contra hgt
          exact hcond (by simp [not_le.mp hgt])
        have hle2 : st.used.memory + p.memory.getD 0 ≤ st.limits.total_memory := by
          by_contra hgt
          exact hcond (by simp [not_le.mp hgt])
        have hle3 : st.used.storage + p.storage.getD 0 ≤ st.limits.total_storage := by
          by_contra hgt
          exact hcond (by simp [not_le.mp hgt])
        have hnd2 : ((dictSet st.allocations caller
            { cpu := p.cpu.getD 0, memory := p.memory.getD 0,
              storage := p.storage.getD 0, allocated_at := now }).map Prod.fst).Nodup :=
          dictSet_keys_nodup hnd
        have hpos2 : ∀ q ∈ dictSet st.allocations caller
            { cpu := p.cpu.getD 0, memory := p.memory.getD 0,
              storage := p.storage.getD 0, allocated_at := now },
            0 ≤ (q : String × ResAlloc).2.cpu ∧ 0 ≤ q.2.memory ∧ 0 ≤ q.2.storage := by
          intro q hq
          rcases mem_dictSet hq with hq | hq
          · subst hq
            exact ⟨hq1, hq2, hq3⟩
          · exact hpos q hq
        have hn1 := allocSum_nonneg (fun a => a.cpu)
          (dictSet st.allocations caller
            { cpu := p.cpu.getD 0, memory := p.memory.getD 0,
              storage := p.storage.getD 0, allocated_at := now })
          (fun q hq => (hpos2 q hq).1)
        have hn2 := allocSum_nonneg (fun a => a.memory)
          (dictSet st.allocations caller
            { cpu := p.cpu.getD 0, memory := p.memory.getD 0,
              storage := p.storage.getD 0, allocated_at := now })
          (fun q hq => (hpos2 q hq).2.1)
        have hn3 := allocSum_nonneg (fun a => a.storage)
          (dictSet st.allocations caller
            { cpu := p.cpu.getD 0, memory := p.memory.getD 0,
              storage := p.storage.getD 0, allocated_at := now })
          (fun q hq => (hpos2 q hq).2.2)
        cases hl : List.lookup caller st.allocations with
        | none =>
            have hs1 := allocSum_dictSet_none (fun a => a.cpu)
              { cpu := p.cpu.getD 0, memory := p.memory.getD 0,
                storage := p.storage.getD 0, allocated_at := now } hl
            have hs2 := allocSum_dictSet_none (fun a => a.memory)
              { cpu := p.cpu.getD 0, memory := p.memory.getD 0,
                storage := p.storage.getD 0, allocated_at := now } hl
            have hs3 := allocSum_dictSet_none (fun a => a.storage)
              { cpu := p.cpu.getD 0, memory := p.memory.getD 0,
                storage := p.storage.getD 0, allocated_at := now } hl
            simp only [resStep, ResourceAllocationContract.request_resources, hl]
            rw [if_neg hcond]
            refine ⟨hlim, hnd2, hpos2, ?_, ?_, ?_, ?_, ?_, ?_, ?_, ?_, ?_⟩
            · show st.used.cpu + p.cpu.getD 0 = _
              rw [hs1, hcpu]
            · show st.used.memory + p.memory.getD 0 = _
              rw [hs2, hmem]
            · show st.used.storage + p.storage.getD 0 = _
              rw [hs3, hsto]
            · show (0 : Int) ≤ st.used.cpu + p.cpu.getD 0
              omega
            · show st.used.cpu + p.cpu.getD 0 ≤ st.limits.total_cpu
              exact hle1
            · show (0 : Int) ≤ st.used.memory + p.memory.getD 0
              omega
            · show st.used.memory + p.memory.getD 0 ≤ st.limits.total_memory
              exact hle2
            · show (0 : Int) ≤ st.used.storage + p.storage.getD 0
              omega
            · show st.used.storage + p.storage.getD 0 ≤ st.limits.total_storage
              exact hle3
        | some old =>
            have hold : 0 ≤ old.cpu ∧ 0 ≤ old.memory ∧ 0 ≤ old.storage :=
              hpos (caller, old) (lookup_mem hl)
            have hs1 := allocSum_dictSet_some (fun a => a.cpu)
              { cpu := p.cpu.getD 0, memory := p.memory.getD 0,
                storage := p.storage.getD 0, allocated_at := now } hl
            have hs2 := allocSum_dictSet_some (fun a => a.memory)
              { cpu := p.cpu.getD 0, memory := p.memory.getD 0,
                storage := p.storage.getD 0, allocated_at := now } hl
            have hs3 := allocSum_dictSet_some (fun a => a.storage)
              { cpu := p.cpu.getD 0, memory := p.memory.getD 0,
                storage := p.storage.getD 0, allocated_at := now } hl
            simp only [resStep, ResourceAllocationContract.request_resources, hl]
            rw [if_neg hcond]
            refine ⟨hlim, hnd2, hpos2, ?_, ?_, ?_, ?_, ?_, ?_, ?_, ?_, ?_⟩
            · show st.used.cpu - old.cpu + p.cpu.getD 0 = _
              rw [hs1, hcpu]
            · show st.used.memory - old.memory + p.memory.getD 0 = _
              rw [hs2, hmem]
            · show st.used.storage - old.storage + p.storage.getD 0 = _
              rw [hs3, hsto]
            · show (0 : Int) ≤ st.used.cpu - old.cpu + p.cpu.getD 0
              rw [hs1] at hn1
              have hn1b : (0 : Int) ≤ allocSum (fun a => a.cpu) st.allocations
                  - old.cpu + p.cpu.getD 0 := hn1
              rw [hcpu]
              exact hn1b
            · show st.used.cpu - old.cpu + p.cpu.getD 0 ≤ st.limits.total_cpu
              have h1 := hold.1
              omega
            · show (0 : Int) ≤ st.used.memory - old.memory + p.memory.getD 0
              rw [hs2] at hn2
              have hn2b : (0 : Int) ≤ allocSum (fun a => a.memory) st.allocations
                  - old.memory + p.memory.getD 0 := hn2
              rw [hmem]
              exact hn2b
            · show st.used.memory - old.memory + p.memory.getD 0 ≤ st.limits.total_memory
              have h1 := hold.2.1
              omega
            · show (0 : Int) ≤ st.used.storage - old.storage + p.storage.getD 0
              rw [hs3] at hn3
              have hn3b : (0 : Int) ≤ allocSum (fun a => a.storage) st.allocations
                  - old.storage + p.storage.getD 0 := hn3
              rw [hsto]
              exact hn3b
            · show st.used.storage - old.storage + p.storage.getD 0
                  ≤ st.limits.total_storage
              have h1 := hold.2.2
              omega

theorem resStep_sum_inv (st : ResourceState) (op : ResOp) (hinv : ResInvSum st) :
    ResInvSum (resStep st op) := by
  obtain ⟨hlim, hnd, hcpu, hmem, hsto⟩ := hinv
  cases op with
  | getAlloc p => exact ⟨hlim, hnd, hcpu, hmem, hsto⟩
  | getUsage => exact ⟨hlim, hnd, hcpu, hmem, hsto⟩
  | release caller =>
      simp only [resStep, ResourceAllocationContract.release_resources]
      cases hl : List.lookup caller st.allocations with
      | none => exact ⟨hlim, hnd, hcpu, hmem, hsto⟩
      | some a =>
          have hsub := eraseKey_sublist caller st.allocations
          refine ⟨hlim, ((hsub.map Prod.fst).nodup) hnd, ?_, ?_, ?_⟩
          · simp [allocSum_eraseKey _ _ _ _ hl, hcpu]
          · simp [allocSum_eraseKey _ _ _ _ hl, hmem]
          · simp [allocSum_eraseKey _ _ _ _ hl, hsto]
  | request p caller now =>
      by_cases hcond : (decide (st.used.cpu + p.cpu.getD 0 > st.limits.total_cpu)
          || decide (st.used.memory + p.memory.getD 0 > st.limits.total_memory)
          || decide (st.used.storage + p.storage.getD 0 > st.limits.total_storage)) = true
      · simp only [resStep, ResourceAllocationContract.request_resources]
        rw [if_pos hcond]
        exact ⟨hlim, hnd, hcpu, hmem, hsto⟩
      · cases hl : List.lookup caller st.allocations with
        | none =>
            have hs1 := allocSum_dictSet_none (fun a => a.cpu)
              { cpu := p.cpu.getD 0, memory := p.memory.getD 0,
                storage := p.storage.getD 0, allocated_at := now } hl
            have hs2 := allocSum_dictSet_none (fun a => a.memory)
              { cpu := p.cpu.getD 0, memory := p.memory.getD 0,
                storage := p.storage.getD 0, allocated_at := now } hl
            have hs3 := allocSum_dictSet_none (fun a => a.storage)
              { cpu := p.cpu.getD 0, memory := p.memory.getD 0,
                storage := p.storage.getD 0, allocated_at := now } hl
            simp only [resStep, ResourceAllocationContract.request_resources, hl]
            rw [if_neg hcond]
            refine ⟨hlim, dictSet_keys_nodup hnd, ?_, ?_, ?_⟩
            · show st.used.cpu + p.cpu.getD 0 = _
              rw [hs1, hcpu]
            · show st.used.memory + p.memory.getD 0 = _
              rw [hs2, hmem]
            · show st.used.storage + p.storage.getD 0 = _
              rw [hs3, hsto]
        | some old =>
            have hs1 := allocSum_dictSet_some (fun a => a.cpu)
              { cpu := p.cpu.getD 0, memory := p.memory.getD 0,
                storage := p.storage.getD 0, allocated_at := now } hl
            have hs2 := allocSum_dictSet_some (fun a => a.memory)
              { cpu := p.cpu.getD 0, memory := p.memory.getD 0,
                storage := p.storage.getD 0, allocated_at := now } hl
            have hs3 := allocSum_dictSet_some (fun a => a.storage)
              { cpu := p.cpu.getD 0, memory := p.memory.getD 0,
                storage := p.storage.getD 0, allocated_at := now } hl
            simp only [resStep, ResourceAllocationContract.request_resources, hl]
            rw [if_neg hcond]
            refine ⟨hlim, dictSet_keys_nodup hnd, ?_, ?_, ?_⟩
            · show st.used.cpu - old.cpu + p.cpu.getD 0 = _
              rw [hs1, hcpu]
            · show st.used.memory - old.memory + p.memory.getD 0 = _
              rw [hs2, hmem]
            · show st.used.storage - old.storage + p.storage.getD 0 = _
              rw [hs3, hsto]

theorem foldl_resStep_sum_inv : ∀ (ops : List ResOp) (st : ResourceState),
    ResInvSum st → ResInvSum (ops.foldl resStep st)
  | [], _ => fun h => h
  | op :: ops, st => fun h => by
      simp only [List.foldl_cons]
      exact foldl_resStep_sum_inv ops _ (resStep_sum_inv st op h)

theorem foldl_resStep_inv : ∀ (ops : List ResOp) (st : ResourceState),
    ResInv st → (∀ op ∈ ops, reqNonneg op) → ResInv (ops.foldl resStep st)
  | [], st => fun h _ => h
  | op :: ops, st => fun h hops => by
      simp only [List.foldl_cons]
      exact foldl_resStep_inv ops _ (resStep_inv st op h (hops op (by simp)))
        (fun o ho => hops o (by simp [ho]))

/-- Claim C9: from the initial contract state, every sequence of
`request_resources`, `release_resources`, `get_allocation` and `get_usage`
calls preserves — unconditionally — that `used` equals the per-dimension sum
over the allocation map (with fixed limits and distinct keys); and, provided
every request passes nonnegative quantities, additionally
`0 ≤ used ≤ limit` in every dimension. -/
theorem c9_resource_invariant (ops : List ResOp) :
    ResInvSum (ops.foldl resStep ResourceState.initial)
    ∧ ((∀ op ∈ ops, reqNonneg op) →
        ResInv (ops.foldl resStep ResourceState.initial)) := by
  constructor
  · apply foldl_resStep_sum_inv ops ResourceState.initial
    exact ⟨rfl, by simp [ResourceState.initial], rfl, rfl, rfl⟩
  · intro hops
    apply foldl_resStep_inv ops ResourceState.initial ?_ hops
    refine ⟨rfl, by simp [ResourceState.initial], ?_, rfl, rfl, rfl, ?_, ?_, ?_, ?_, ?_, ?_⟩
    · intro q hq
      simp [ResourceState.initial] at hq
    all_goals decide

/-- Witness for C9: the sum invariant holds even after a negative request
(no proviso needed), and the full invariant holds for a concrete nonnegative
request-then-release sequence by "A". -/
theorem c9_resource_invariant_witness :
    ResInvSum ([ResOp.request
        { cpu := some (-5), memory := some 0, storage := some 0,
          instance_id := none } "A" 3].foldl resStep ResourceState.initial)
    ∧ ResInv ([ResOp.request
        { cpu := some 50, memory := some 1024, storage := some 5120,
          instance_id := none } "A" 5,
      ResOp.release "A"].foldl resStep ResourceState.initial) := by
  constructor
  · exact (c9_resource_invariant [ResOp.request
      { cpu := some (-5), memory := some 0, storage := some 0,
        instance_id := none } "A" 3]).1
  · apply (c9_resource_invariant [ResOp.request
      { cpu := some 50, memory := some 1024, storage := some 5120,
        instance_id := none } "A" 5, ResOp.release "A"]).2
    intro op hop
    rcases List.mem_cons.mp hop with hh | hh
    · subst hh
      exact ⟨by decide, by decide, by decide⟩
    · rcases List.mem_cons.mp hh with hh2 | hh2
      · subst hh2
        exact trivial
      · exact absurd hh2 (List.not_mem_nil op)

end MCPChain
